import Mathlib

/-!
Verification of the NEXO matching core (`src/matching_algorithm.py`, class
`NEXOEventMatcher`) against its natural-language specification.

The Python code is shallowly embedded below.  Modelling conventions:
* Python floats are modelled as rationals (`ℚ`); every arithmetic operation
  performed by the scorer, the scheduler sort key and the statistics is exact
  on the values the program manipulates.
* Python dicts keyed by strings are modelled as total functions
  `String → _` with the dict's default value (`dict.get(k, d)`), or as
  association lists where insertion order matters.
* Python records (buyer/seller dicts) are structures; fields read through
  `dict.get(k, default)` in the source become `Option` fields read through
  `Option.getD`.
* Python `set(xs)` iteration is modelled by `List.dedup`; only cardinality
  and membership of those sets are observable in the translated code paths.
* `list.sort` / `sorted` (stable) are modelled by `List.mergeSort`, which is
  stable for the supplied total preorder.
* The `print` logging statements are dropped, with one exception that is
  not side-effect free: the summary block of `find_matches`
  (src/matching_algorithm.py lines 197-205) computes
  `double_matches/total*100` with `total = len(all_matches)` and therefore
  raises `ZeroDivisionError` whenever zero matches were generated.  That
  raise happens before the function returns, so `find_matches` is embedded
  with an `Option` result (`none` = the raise); the list built by the three
  passes is exposed separately as `generatedMatches`.
-/

namespace Nexo

/-- Buyer record as produced by `nexo_data.py` and consumed by
`matching_algorithm.py`.  Fields accessed via `dict.get` with a default in
the algorithm are `Option`-valued. -/
structure Buyer where
  id : String
  name : String
  company : String
  investment_amount : Option Int
  locations : Option Int
  facility_type : Option String
  sponsorship_tier : String
  interests : Option (List String)
  selected_sellers : Option (List String)
  region : String
deriving DecidableEq

/-- Seller record. -/
structure Seller where
  id : String
  name : String
  company : String
  products : Option (List String)
  selected_buyers : Option (List String)
  region : String
deriving DecidableEq

/-- The five compatibility weights held in
`NEXOEventMatcher.compatibility_weights` (src/matching_algorithm.py lines
36-42). -/
structure Weights where
  interest_alignment : ℚ
  investment_factor : ℚ
  company_size : ℚ
  facility_type : ℚ
  existing_client : ℚ
deriving DecidableEq

/-- The weights installed by `NEXOEventMatcher.__init__`
(src/matching_algorithm.py lines 36-42). -/
def defaultWeights : Weights :=
  { interest_alignment := 40/100
    investment_factor := 25/100
    company_size := 20/100
    facility_type := 10/100
    existing_client := 5/100 }

/-- Sum of the five weights. -/
def weightsSum (w : Weights) : ℚ :=
  w.interest_alignment + w.investment_factor + w.company_size +
    w.facility_type + w.existing_client

/-- Pointwise scaling of a weight configuration. -/
def scaleWeights (c : ℚ) (w : Weights) : Weights :=
  { interest_alignment := c * w.interest_alignment
    investment_factor := c * w.investment_factor
    company_size := c * w.company_size
    facility_type := c * w.facility_type
    existing_client := c * w.existing_client }

/-- Interest/product alignment sub-score (src/matching_algorithm.py lines
48-53): `set` cardinalities become `dedup` lengths, the intersection
cardinality a filtered count. -/
def interestScore (buyer : Buyer) (seller : Seller) : ℚ :=
  let buyer_interests := (buyer.interests.getD []).dedup
  let seller_products := (seller.products.getD []).dedup
  let interest_overlap :=
    (buyer_interests.filter (fun t => decide (t ∈ seller_products))).length
  let max_interests := max (max buyer_interests.length seller_products.length) 1
  (interest_overlap : ℚ) / (max_interests : ℚ)

/-- Investment amount step function (src/matching_algorithm.py lines 56-67). -/
def investmentScore (buyer : Buyer) : ℚ :=
  let investment := buyer.investment_amount.getD 0
  if investment ≥ 100000000 then 1
  else if investment ≥ 50000000 then 8/10
  else if investment ≥ 10000000 then 6/10
  else if investment ≥ 1000000 then 4/10
  else 2/10

/-- Company size step function on the location count
(src/matching_algorithm.py lines 70-79). -/
def sizeScore (buyer : Buyer) : ℚ :=
  let locations := buyer.locations.getD 1
  if locations ≥ 5 then 1
  else if locations ≥ 3 then 8/10
  else if locations ≥ 2 then 6/10
  else 4/10

/-- Facility type compatibility (src/matching_algorithm.py lines 82-92):
base 0.5, raised to 1.0 when the facility type and the seller's product
list match the fixed table.  `buyer.get('facility_type')` has no default,
hence the bare `Option` comparison. -/
def facilityScore (buyer : Buyer) (seller : Seller) : ℚ :=
  let products := seller.products.getD []
  if buyer.facility_type = some "Gym Chain" ∨ buyer.facility_type = some "Premium Gym" then
    (if "Equipment" ∈ products then 1 else 1/2)
  else if buyer.facility_type = some "Wellness Center" ∨ buyer.facility_type = some "Corporate Wellness" then
    (if "Wellness" ∈ products then 1 else 1/2)
  else if buyer.facility_type = some "Boutique Studio" then
    (if "Technology" ∈ products then 1 else 1/2)
  else 1/2

/-- Embedding of `NEXOEventMatcher.calculate_compatibility_score`
(src/matching_algorithm.py lines 44-98): sequential accumulation of the five
weighted sub-scores, then conversion to a percentage capped at 100.  The
weights argument is the instance's `compatibility_weights` attribute. -/
def calculate_compatibility_score (w : Weights) (buyer : Buyer) (seller : Seller) : ℚ :=
  let score : ℚ := 0
  let score := score + interestScore buyer seller * w.interest_alignment
  let score := score + investmentScore buyer * w.investment_factor
  let score := score + sizeScore buyer * w.company_size
  let score := score + facilityScore buyer seller * w.facility_type
  let score := score + 1/2 * w.existing_client
  min (score * 100) 100

/-- Caller-side weight installation (src/app.py lines 372-407): the app sums
the five slider values and, when the sum is positive, stores each value
divided by that sum into `matcher.compatibility_weights`; otherwise the
matcher keeps the `__init__` defaults. -/
def appNormalizeWeights (iw vw cw fw rw : ℚ) : Weights :=
  let total_weight := iw + vw + cw + fw + rw
  if 0 < total_weight then
    { interest_alignment := iw / total_weight
      investment_factor := vw / total_weight
      company_size := cw / total_weight
      facility_type := fw / total_weight
      existing_client := rw / total_weight }
  else defaultWeights

/-- Match record (src/matching_algorithm.py lines 11-20, dataclass `Match`). -/
structure MatchRec where
  buyer_id : String
  seller_id : String
  match_type : String
  compatibility_score : ℚ
  meeting_scheduled : Bool := false
  time_slot : Option String := none
  priority : Int := 1
deriving DecidableEq

/-- Embedding of `buyer_meetings[buyer_id]` (src/matching_algorithm.py line 109): the
dict maps every buyer id to the list of that buyer's matches; each append to
`all_matches` is mirrored by an append to the entry of the match's buyer, so
the entry always equals the sublist of `all_matches` for that buyer id. -/
def buyerMeetings (ms : List MatchRec) (bid : String) : List MatchRec :=
  ms.filter (fun m => decide (m.buyer_id = bid))

/-- Number of matches of a buyer in a match list. -/
def cntB (ms : List MatchRec) (bid : String) : ℕ :=
  (buyerMeetings ms bid).length

/-- Seller ids already matched with a buyer
(`matched_seller_ids`, src/matching_algorithm.py line 172). -/
def msIds (ms : List MatchRec) (bid : String) : List String :=
  (buyerMeetings ms bid).map (fun m => m.seller_id)

/-- Mutual selection test of match generation step 1
(src/matching_algorithm.py line 119): the buyer's id appears in the seller's
`selected_buyers` set and the seller's id in the buyer's `selected_sellers`
set. -/
def doubleSelected (buyer : Buyer) (seller : Seller) : Prop :=
  buyer.id ∈ seller.selected_buyers.getD [] ∧ seller.id ∈ buyer.selected_sellers.getD []

instance (buyer : Buyer) (seller : Seller) : Decidable (doubleSelected buyer seller) :=
  inferInstanceAs (Decidable (_ ∧ _))

/-- The `double_match` record built at src/matching_algorithm.py lines
121-127. -/
def mkDoubleMatch (w : Weights) (buyer : Buyer) (seller : Seller) : MatchRec :=
  { buyer_id := buyer.id
    seller_id := seller.id
    match_type := "double_match"
    compatibility_score := calculate_compatibility_score w buyer seller
    priority := 1 }

/-- Step 1 inner loop (src/matching_algorithm.py lines 115-130): scan the
sellers for one buyer, appending a `double_match` for each mutual
selection. -/
def step1Buyer (w : Weights) (buyer : Buyer) (sellers : List Seller)
    (acc : List MatchRec) : List MatchRec :=
  match sellers with
  | [] => acc
  | seller :: rest =>
    step1Buyer w buyer rest
      (if doubleSelected buyer seller then acc ++ [mkDoubleMatch w buyer seller] else acc)

/-- Step 1 outer loop (src/matching_algorithm.py lines 113-130). -/
def step1Go (w : Weights) (buyers : List Buyer) (sellers : List Seller)
    (acc : List MatchRec) : List MatchRec :=
  match buyers with
  | [] => acc
  | buyer :: rest => step1Go w rest sellers (step1Buyer w buyer sellers acc)

/-- One iteration of the step 2 inner loop over a seller's selected buyer
ids (src/matching_algorithm.py lines 136-159): resolve the buyer id, skip
when the pair is already matched, otherwise append a `seller_choice` when
the buyer still has fewer than 5 matches. -/
def step2Entry (w : Weights) (buyers : List Buyer) (seller : Seller)
    (acc : List MatchRec) (buyer_id : String) : List MatchRec :=
  match buyers.find? (fun b => decide (b.id = buyer_id)) with
  | none => acc
  | some buyer =>
    if (buyerMeetings acc buyer_id).any
        (fun m => decide (m.buyer_id = buyer_id ∧ m.seller_id = seller.id)) then acc
    else if (buyerMeetings acc buyer_id).length < 5 then
      acc ++ [{ buyer_id := buyer_id
                seller_id := seller.id
                match_type := "seller_choice"
                compatibility_score := calculate_compatibility_score w buyer seller
                priority := 2 }]
    else acc

/-- Step 2 loop over one seller's selection set; Python iterates the `set`
of `selected_buyers`, modelled as the deduplicated list. -/
def step2Ids (w : Weights) (buyers : List Buyer) (seller : Seller)
    (ids : List String) (acc : List MatchRec) : List MatchRec :=
  match ids with
  | [] => acc
  | i :: rest => step2Ids w buyers seller rest (step2Entry w buyers seller acc i)

/-- Step 2 outer loop over the sellers (src/matching_algorithm.py lines
134-159). -/
def step2Go (w : Weights) (buyers : List Buyer) (sellers : List Seller)
    (acc : List MatchRec) : List MatchRec :=
  match sellers with
  | [] => acc
  | seller :: rest =>
    step2Go w buyers rest
      (step2Ids w buyers seller ((seller.selected_buyers.getD []).dedup) acc)

/-- The `ai_suggestion` record built at src/matching_algorithm.py lines
185-191 from a (seller, compatibility) pair. -/
def mkAISuggestion (buyer : Buyer) (p : Seller × ℚ) : MatchRec :=
  { buyer_id := buyer.id
    seller_id := p.1.id
    match_type := "ai_suggestion"
    compatibility_score := p.2
    meeting_scheduled := false
    time_slot := none
    priority := 3 }

/-- Step 3 body for one buyer (src/matching_algorithm.py lines 163-194):
when the buyer holds fewer than 5 matches, rank the not-yet-matched sellers
by compatibility (stable descending sort, Python's `sort(reverse=True)`) and
append an `ai_suggestion` for each of the top `5 - current` of them. -/
def step3Buyer (w : Weights) (sellers : List Seller) (buyer : Buyer)
    (acc : List MatchRec) : List MatchRec :=
  let current_meetings := (buyerMeetings acc buyer.id).length
  if current_meetings < 5 then
    let needed_meetings := 5 - current_meetings
    let matched_seller_ids := (buyerMeetings acc buyer.id).map (fun m => m.seller_id)
    let available_sellers := sellers.filter (fun s => decide (s.id ∉ matched_seller_ids))
    let compatibility_scores :=
      available_sellers.map (fun s => (s, calculate_compatibility_score w buyer s))
    let sorted := compatibility_scores.mergeSort (fun x y => decide (y.2 ≤ x.2))
    acc ++ (sorted.take needed_meetings).map (mkAISuggestion buyer)
  else acc

/-- Step 3 outer loop over the buyers (src/matching_algorithm.py lines
163-194). -/
def step3Go (w : Weights) (sellers : List Seller) (buyers : List Buyer)
    (acc : List MatchRec) : List MatchRec :=
  match buyers with
  | [] => acc
  | buyer :: rest => step3Go w sellers rest (step3Buyer w sellers buyer acc)

/-- The `all_matches` list built by the three sequential passes of
`find_matches` (src/matching_algorithm.py lines 108-194), before the summary
block runs. -/
def generatedMatches (w : Weights) (buyers : List Buyer) (sellers : List Seller) :
    List MatchRec :=
  step3Go w sellers buyers (step2Go w buyers sellers (step1Go w buyers sellers []))

/-- Embedding of `NEXOEventMatcher.find_matches` (src/matching_algorithm.py
lines 100-213): the three passes build `all_matches`; the summary block then
computes `double_matches/total*100` (line 203) with
`total = len(all_matches)`, raising `ZeroDivisionError` when no matches were
generated — modelled as `none`.  Otherwise the match list is returned. -/
def find_matches (w : Weights) (buyers : List Buyer) (sellers : List Seller) :
    Option (List MatchRec) :=
  let all_matches := generatedMatches w buyers sellers
  let total := all_matches.length
  if total = 0 then none else some all_matches

/-- Time-slot record (`TIME_SLOTS` entries in src/nexo_data.py). -/
structure TimeSlot where
  id : String
  date : String
  time : String
  duration : Int
deriving DecidableEq

/-- Meeting dict built at src/matching_algorithm.py lines 241-251. -/
structure Meeting where
  buyer_id : String
  seller_id : String
  time_slot : String
  date : String
  time : String
  duration : Int
  match_type : String
  compatibility_score : ℚ
  priority : Int
deriving DecidableEq

/-- Build the meeting dict for a match placed into a slot. -/
def toMeeting (m : MatchRec) (ts : TimeSlot) : Meeting :=
  { buyer_id := m.buyer_id
    seller_id := m.seller_id
    time_slot := ts.id
    date := ts.date
    time := ts.time
    duration := ts.duration
    match_type := m.match_type
    compatibility_score := m.compatibility_score
    priority := m.priority }

/-- Append a slot id to one key of a schedule dict
(src/matching_algorithm.py lines 256-262); the dict is modelled as a total
function defaulting to `[]`, matching `dict.get(key, [])`. -/
def schedUpdate (f : String → List String) (k : String) (v : String) :
    String → List String :=
  fun x => if x = k then f k ++ [v] else f x

/-- The scheduler's sort (src/matching_algorithm.py line 223):
`sorted(matches, key=lambda x: (x.priority, -x.compatibility_score))`,
a stable sort by priority ascending then compatibility descending. -/
def sortedMatches (matchList : List MatchRec) : List MatchRec :=
  matchList.mergeSort (fun x y =>
    decide (x.priority < y.priority ∨
      (x.priority = y.priority ∧ y.compatibility_score ≤ x.compatibility_score)))

/-- Main scheduling loop (src/matching_algorithm.py lines 227-275): for each
match in sorted order, find the first time slot free for both parties; on
success append the meeting, extend both schedule dicts and mark the match
scheduled; otherwise leave everything unchanged.  `processed` collects the
match records with the in-place mutations of lines 265-266 applied, in
processing order. -/
def create_schedule_go (time_slots : List TimeSlot) (ms : List MatchRec)
    (meetings : List Meeting) (bsched ssched : String → List String)
    (processed : List MatchRec) : List Meeting × List MatchRec :=
  match ms with
  | [] => (meetings, processed)
  | m :: rest =>
    match time_slots.find? (fun ts =>
        decide (ts.id ∉ bsched m.buyer_id) && decide (ts.id ∉ ssched m.seller_id)) with
    | some ts =>
      create_schedule_go time_slots rest (meetings ++ [toMeeting m ts])
        (schedUpdate bsched m.buyer_id ts.id) (schedUpdate ssched m.seller_id ts.id)
        (processed ++ [{ m with meeting_scheduled := true, time_slot := some ts.id }])
    | none => create_schedule_go time_slots rest meetings bsched ssched (processed ++ [m])

/-- Embedding of `NEXOEventMatcher.create_schedule` (src/matching_algorithm.py lines
215-278).  The `buyers`/`sellers` arguments are only used for logging names
in the source and are unused here.  The first component is the returned
`scheduled_meetings` list; the second records the match records after the
scheduler's in-place mutation, in processing order. -/
def create_schedule (matchList : List MatchRec) (buyers : List Buyer)
    (sellers : List Seller) (time_slots : List TimeSlot) :
    List Meeting × List MatchRec :=
  create_schedule_go time_slots (sortedMatches matchList) []
    (fun _ => []) (fun _ => []) []

/-- Banker's rounding to an integer, the behaviour of Python's `round` on
exactly representable values; ties go to the even neighbour. -/
def roundHalfEven (q : ℚ) : ℤ :=
  if q - ⌊q⌋ < 1/2 then ⌊q⌋
  else if 1/2 < q - ⌊q⌋ then ⌊q⌋ + 1
  else if ⌊q⌋ % 2 = 0 then ⌊q⌋ else ⌊q⌋ + 1

/-- Python's `round(x, 2)` modelled exactly on rationals. -/
def round2 (q : ℚ) : ℚ := (roundHalfEven (q * 100) : ℚ) / 100

/-- Increment a counting dict entry, inserting it at the end on first use
(`d[k] = d.get(k, 0) + 1` with insertion-ordered dicts). -/
def bumpKey (d : List (String × ℕ)) (k : String) : List (String × ℕ) :=
  if d.any (fun p => decide (p.1 = k)) then
    d.map (fun p => if p.1 = k then (p.1, p.2 + 1) else p)
  else d ++ [(k, 1)]

/-- The statistics dict built at src/matching_algorithm.py lines 304-314. -/
structure Stats where
  total_matches : ℕ
  scheduled_meetings : ℕ
  unscheduled_matches : ℤ
  scheduling_efficiency : ℚ
  average_compatibility : ℚ
  match_type_distribution : List (String × ℕ)
  priority_distribution : List (String × ℕ)
  unique_buyers_matched : ℕ
  unique_sellers_matched : ℕ
deriving DecidableEq

/-- Result of `get_matching_statistics`: either the early-return marker dict
`{'error': 'No matches found'}` or the statistics dict. -/
inductive StatsResult where
  | error (msg : String)
  | stats (s : Stats)
deriving DecidableEq

/-- Embedding of `NEXOEventMatcher.get_matching_statistics` (src/matching_algorithm.py
lines 280-314). -/
def get_matching_statistics (matchList : List MatchRec)
    (scheduled_meetings : List Meeting) : StatsResult :=
  if matchList = [] then StatsResult.error "No matches found"
  else
    let match_types := matchList.foldl (fun d m => bumpKey d m.match_type) []
    let compatibility_scores := matchList.map (fun m => m.compatibility_score)
    let avg_compatibility := compatibility_scores.sum / (compatibility_scores.length : ℚ)
    let scheduled_count := scheduled_meetings.length
    let total_matches := matchList.length
    let scheduling_efficiency : ℚ :=
      if 0 < total_matches then ((scheduled_count : ℚ) / (total_matches : ℚ)) * 100 else 0
    let priority_dist :=
      matchList.foldl (fun d m => bumpKey d ("Priority " ++ toString m.priority)) []
    StatsResult.stats
      { total_matches := total_matches
        scheduled_meetings := scheduled_count
        unscheduled_matches := (total_matches : ℤ) - (scheduled_count : ℤ)
        scheduling_efficiency := round2 scheduling_efficiency
        average_compatibility := round2 avg_compatibility
        match_type_distribution := match_types
        priority_distribution := priority_dist
        unique_buyers_matched := ((matchList.map (fun m => m.buyer_id)).dedup).length
        unique_sellers_matched := ((matchList.map (fun m => m.seller_id)).dedup).length }

/-! ### Bounds of the five sub-scores -/

theorem interestScore_nonneg (b : Buyer) (s : Seller) : 0 ≤ interestScore b s := by
  unfold interestScore
  positivity

theorem interestScore_le_one (b : Buyer) (s : Seller) : interestScore b s ≤ 1 := by
  unfold interestScore
  have hlen : ((b.interests.getD []).dedup.filter
      (fun t => decide (t ∈ (s.products.getD []).dedup))).length ≤
      max (max (b.interests.getD []).dedup.length (s.products.getD []).dedup.length) 1 := by
    calc ((b.interests.getD []).dedup.filter
        (fun t => decide (t ∈ (s.products.getD []).dedup))).length
        ≤ (b.interests.getD []).dedup.length := List.length_filter_le _ _
      _ ≤ _ := le_max_of_le_left (le_max_left _ _)
  have hpos : (0 : ℚ) < (max (max (b.interests.getD []).dedup.length
      (s.products.getD []).dedup.length) 1 : ℕ) := by
    have : (1 : ℕ) ≤ max (max (b.interests.getD []).dedup.length
        (s.products.getD []).dedup.length) 1 := le_max_right _ _
    exact_mod_cast Nat.lt_of_lt_of_le Nat.zero_lt_one this
  rw [div_le_one hpos]
  exact_mod_cast hlen

theorem investmentScore_bounds (b : Buyer) :
    1/5 ≤ investmentScore b ∧ investmentScore b ≤ 1 := by
  simp only [investmentScore]
  split_ifs <;> norm_num

theorem sizeScore_bounds (b : Buyer) : 2/5 ≤ sizeScore b ∧ sizeScore b ≤ 1 := by
  simp only [sizeScore]
  split_ifs <;> norm_num

theorem facilityScore_bounds (b : Buyer) (s : Seller) :
    1/2 ≤ facilityScore b s ∧ facilityScore b s ≤ 1 := by
  simp only [facilityScore]
  split_ifs <;> norm_num

/-- Raw weighted sum lower and upper bounds under the default weights. -/
theorem score_raw_bounds (b : Buyer) (s : Seller) :
    41/200 ≤ 0 + interestScore b s * defaultWeights.interest_alignment
        + investmentScore b * defaultWeights.investment_factor
        + sizeScore b * defaultWeights.company_size
        + facilityScore b s * defaultWeights.facility_type
        + 1/2 * defaultWeights.existing_client ∧
      0 + interestScore b s * defaultWeights.interest_alignment
        + investmentScore b * defaultWeights.investment_factor
        + sizeScore b * defaultWeights.company_size
        + facilityScore b s * defaultWeights.facility_type
        + 1/2 * defaultWeights.existing_client ≤ 1 := by
  have h1 := interestScore_nonneg b s
  have h2 := interestScore_le_one b s
  have h3 := investmentScore_bounds b
  have h4 := sizeScore_bounds b
  have h5 := facilityScore_bounds b s
  simp only [defaultWeights]
  constructor <;> nlinarith [h3.1, h3.2, h4.1, h4.2, h5.1, h5.2]

/-- C9: with the default weights every compatibility score is at least 20.5
(each sub-score except interest alignment has a positive floor), hence never
0. -/
theorem C9_score_floor (b : Buyer) (s : Seller) :
    41/2 ≤ calculate_compatibility_score defaultWeights b s ∧
      calculate_compatibility_score defaultWeights b s ≠ 0 := by
  have h := (score_raw_bounds b s).1
  have hle : 41/2 ≤ calculate_compatibility_score defaultWeights b s := by
    simp only [calculate_compatibility_score]
    exact le_min (by linarith) (by norm_num)
  refine ⟨hle, ?_⟩
  intro hz
  rw [hz] at hle
  norm_num at hle

/-- C8: with the default weights the score lies in `[0, 100]`; it is
invariant under reordering of the buyer's interest list and the seller's
product list; and missing optional buyer fields behave exactly like the
documented defaults (empty interests, zero investment, one location).
Determinism and absence of side effects hold because the embedding is a
function. -/
theorem C8_score_contract (b : Buyer) (s : Seller) (i' p' : List String)
    (hi : (b.interests.getD []).Perm i') (hp : (s.products.getD []).Perm p') :
    (0 ≤ calculate_compatibility_score defaultWeights b s ∧
      calculate_compatibility_score defaultWeights b s ≤ 100) ∧
    calculate_compatibility_score defaultWeights
        { b with interests := some i' } { s with products := some p' } =
      calculate_compatibility_score defaultWeights b s ∧
    calculate_compatibility_score defaultWeights
        { b with interests := none, investment_amount := none, locations := none } s =
      calculate_compatibility_score defaultWeights
        { b with interests := some [], investment_amount := some 0, locations := some 1 } s := by
  refine ⟨⟨?_, ?_⟩, ?_, rfl⟩
  · have h := (score_raw_bounds b s).1
    simp only [calculate_compatibility_score]
    exact le_min (by linarith) (by norm_num)
  · simp only [calculate_compatibility_score]
    exact min_le_right _ _
  · have hint : interestScore { b with interests := some i' }
        { s with products := some p' } = interestScore b s := by
      unfold interestScore
      have hdi : i'.dedup.Perm (b.interests.getD []).dedup := (hi.symm).dedup
      have hdp : p'.dedup.Perm (s.products.getD []).dedup := (hp.symm).dedup
      have hflt : (i'.dedup.filter (fun t => decide (t ∈ p'.dedup))).length =
          ((b.interests.getD []).dedup.filter
            (fun t => decide (t ∈ (s.products.getD []).dedup))).length := by
        have e1 : ((b.interests.getD []).dedup.filter (fun t => decide (t ∈ p'.dedup))) =
            ((b.interests.getD []).dedup.filter
              (fun t => decide (t ∈ (s.products.getD []).dedup))) := by
          refine List.filter_congr ?_
          intro x _
          simp [hdp.mem_iff]
        calc (i'.dedup.filter (fun t => decide (t ∈ p'.dedup))).length
            = ((b.interests.getD []).dedup.filter
                (fun t => decide (t ∈ p'.dedup))).length :=
              (hdi.filter _).length_eq
          _ = _ := by rw [e1]
      simp only [Option.getD_some]
      rw [hflt, hdi.length_eq, hdp.length_eq]
    have hfac : facilityScore { b with interests := some i' }
        { s with products := some p' } = facilityScore b s := by
      unfold facilityScore
      simp only [Option.getD_some]
      have hmem : ∀ x : String, (x ∈ p') = (x ∈ s.products.getD []) := by
        intro x
        simp [hp.mem_iff]
      split_ifs with h1 h2 h3 h4 h5 h6 h7 h8 h9 h10 h11 h12 <;>
        simp_all [hmem "Equipment", hmem "Wellness", hmem "Technology"]
    have hinv : investmentScore { b with interests := some i' } = investmentScore b := rfl
    have hsz : sizeScore { b with interests := some i' } = sizeScore b := rfl
    simp only [calculate_compatibility_score]
    rw [hint, hfac, hinv, hsz]

/-- C10: the score depends only on the buyer's interests, investment amount,
location count and facility type and on the seller's products; all other
fields are irrelevant, under any weights. -/
theorem C10_score_field_dependence (w : Weights) (b b' : Buyer) (s s' : Seller)
    (h1 : b.interests = b'.interests)
    (h2 : b.investment_amount = b'.investment_amount)
    (h3 : b.locations = b'.locations)
    (h4 : b.facility_type = b'.facility_type)
    (h5 : s.products = s'.products) :
    calculate_compatibility_score w b s = calculate_compatibility_score w b' s' := by
  have e1 : interestScore b s = interestScore b' s' := by
    unfold interestScore
    rw [h1, h5]
  have e2 : investmentScore b = investmentScore b' := by
    unfold investmentScore
    rw [h2]
  have e3 : sizeScore b = sizeScore b' := by
    unfold sizeScore
    rw [h3]
  have e4 : facilityScore b s = facilityScore b' s' := by
    unfold facilityScore
    rw [h4, h5]
  unfold calculate_compatibility_score
  rw [e1, e2, e3, e4]

/-- C4 (amended): the app-side caller re-normalizes custom slider weights to
sum 1 before installing them, but `calculate_compatibility_score` itself
applies whatever weights are stored verbatim — the weighted sum is only
capped at 100, never re-normalized inside the scorer. -/
theorem C4_weights_normalization (iw vw cw fw rw : ℚ)
    (h : 0 < iw + vw + cw + fw + rw) :
    weightsSum (appNormalizeWeights iw vw cw fw rw) = 1 ∧
    ∀ (w : Weights) (b : Buyer) (s : Seller),
      calculate_compatibility_score w b s =
        min ((interestScore b s * w.interest_alignment
          + investmentScore b * w.investment_factor
          + sizeScore b * w.company_size
          + facilityScore b s * w.facility_type
          + 1/2 * w.existing_client) * 100) 100 := by
  constructor
  · simp only [appNormalizeWeights, weightsSum]
    rw [if_pos h]
    field_simp
  · intro w b s
    simp only [calculate_compatibility_score, zero_add]

/-- Minimal concrete buyer for witnesses and counterexamples. -/
def plainBuyer (i : String) (sel : List String) : Buyer :=
  { id := i, name := "B", company := "C", investment_amount := some 0,
    locations := some 1, facility_type := none, sponsorship_tier := "T",
    interests := some [], selected_sellers := some sel, region := "R" }

/-- Minimal concrete seller for witnesses and counterexamples. -/
def plainSeller (i : String) (sel : List String) : Seller :=
  { id := i, name := "S", company := "C", products := some [],
    selected_buyers := some sel, region := "R" }

/-- Witness for `C9_score_floor` is not required (no `Prop` hypothesis);
this record is still exercised by the other witnesses below. -/
def w8b : Buyer := { plainBuyer "b8" [] with interests := some ["Equipment", "Technology"] }

def w8s : Seller := { plainSeller "s8" [] with products := some ["Technology", "Equipment"] }

/-- Witness for C8 at a concrete buyer/seller with reordered tag lists. -/
theorem C8_score_contract_witness :
    (w8b.interests.getD []).Perm ["Technology", "Equipment"] ∧
    (w8s.products.getD []).Perm ["Equipment", "Technology"] ∧
    ((0 ≤ calculate_compatibility_score defaultWeights w8b w8s ∧
      calculate_compatibility_score defaultWeights w8b w8s ≤ 100) ∧
    calculate_compatibility_score defaultWeights
        { w8b with interests := some ["Technology", "Equipment"] }
        { w8s with products := some ["Equipment", "Technology"] } =
      calculate_compatibility_score defaultWeights w8b w8s ∧
    calculate_compatibility_score defaultWeights
        { w8b with interests := none, investment_amount := none, locations := none } w8s =
      calculate_compatibility_score defaultWeights
        { w8b with interests := some [], investment_amount := some 0, locations := some 1 } w8s) :=
  ⟨by decide, by decide,
    C8_score_contract w8b w8s ["Technology", "Equipment"] ["Equipment", "Technology"]
      (by decide) (by decide)⟩

/-- Witness for C10: two buyers and two sellers agreeing exactly on the
scored fields but different everywhere else. -/
def w10b : Buyer :=
  { id := "b10", name := "Alice", company := "Acme", investment_amount := some 60000000,
    locations := some 4, facility_type := some "Gym Chain", sponsorship_tier := "Gold",
    interests := some ["Equipment"], selected_sellers := some ["s1", "s2"],
    region := "EU" }

def w10b' : Buyer :=
  { id := "zz", name := "Bob", company := "Globex", investment_amount := some 60000000,
    locations := some 4, facility_type := some "Gym Chain", sponsorship_tier := "Platinum",
    interests := some ["Equipment"], selected_sellers := some [],
    region := "US" }

def w10s : Seller :=
  { id := "s10", name := "SellCo", company := "SellCo", products := some ["Equipment"],
    selected_buyers := some ["b10"], region := "EU" }

def w10s' : Seller :=
  { id := "other", name := "Else", company := "Else", products := some ["Equipment"],
    selected_buyers := some [], region := "APAC" }

theorem C10_score_field_dependence_witness :
    w10b.interests = w10b'.interests ∧
    w10b.investment_amount = w10b'.investment_amount ∧
    w10b.locations = w10b'.locations ∧
    w10b.facility_type = w10b'.facility_type ∧
    w10s.products = w10s'.products ∧
    calculate_compatibility_score defaultWeights w10b w10s =
      calculate_compatibility_score defaultWeights w10b' w10s' :=
  ⟨rfl, rfl, rfl, rfl, rfl,
    C10_score_field_dependence defaultWeights w10b w10b' w10s w10s' rfl rfl rfl rfl rfl⟩

/-- Witness for the amended C4 at concrete slider values summing to 5. -/
theorem C4_weights_normalization_witness :
    (0 : ℚ) < 1 + 1 + 1 + 1 + 1 ∧
    (weightsSum (appNormalizeWeights 1 1 1 1 1) = 1 ∧
    ∀ (w : Weights) (b : Buyer) (s : Seller),
      calculate_compatibility_score w b s =
        min ((interestScore b s * w.interest_alignment
          + investmentScore b * w.investment_factor
          + sizeScore b * w.company_size
          + facilityScore b s * w.facility_type
          + 1/2 * w.existing_client) * 100) 100) :=
  ⟨by norm_num, C4_weights_normalization 1 1 1 1 1 (by norm_num)⟩

/-- Counterexample refuting C4 as stated: with the matcher's weights doubled
(sum 2) the scorer does not re-normalize — scoring with those weights gives
41, while scoring with the same weights scaled to sum 1 gives 20.5. -/
theorem C4_weights_counterexample :
    weightsSum (scaleWeights 2 defaultWeights) ≠ 1 ∧
    scaleWeights (1 / weightsSum (scaleWeights 2 defaultWeights))
        (scaleWeights 2 defaultWeights) = defaultWeights ∧
    calculate_compatibility_score (scaleWeights 2 defaultWeights)
        (plainBuyer "b" []) (plainSeller "s" []) ≠
      calculate_compatibility_score
        (scaleWeights (1 / weightsSum (scaleWeights 2 defaultWeights))
          (scaleWeights 2 defaultWeights))
        (plainBuyer "b" []) (plainSeller "s" []) := by
  have hw : scaleWeights (1 / weightsSum (scaleWeights 2 defaultWeights))
      (scaleWeights 2 defaultWeights) = defaultWeights := by
    simp only [scaleWeights, weightsSum, defaultWeights, Weights.mk.injEq]
    norm_num
  have h1 : calculate_compatibility_score (scaleWeights 2 defaultWeights)
      (plainBuyer "b" []) (plainSeller "s" []) = 41 := by
    norm_num [calculate_compatibility_score, interestScore, investmentScore,
      sizeScore, facilityScore, scaleWeights, defaultWeights, plainBuyer, plainSeller]
  have h2 : calculate_compatibility_score defaultWeights
      (plainBuyer "b" []) (plainSeller "s" []) = 41/2 := by
    norm_num [calculate_compatibility_score, interestScore, investmentScore,
      sizeScore, facilityScore, defaultWeights, plainBuyer, plainSeller]
  refine ⟨by norm_num [weightsSum, scaleWeights, defaultWeights], hw, ?_⟩
  rw [h1, hw, h2]
  norm_num

theorem step1Go_nil_sellers (w : Weights) :
    ∀ (buyers : List Buyer) (acc : List MatchRec),
      step1Go w buyers [] acc = acc := by
  intro buyers
  induction buyers with
  | nil => intro acc; rfl
  | cons b rest ih =>
    intro acc
    rw [step1Go]
    exact ih _

theorem step3Buyer_nil_sellers (w : Weights) (b : Buyer) (acc : List MatchRec) :
    step3Buyer w [] b acc = acc := by
  simp only [step3Buyer]
  split_ifs with h
  · simp
  · rfl

theorem step3Go_nil_sellers (w : Weights) :
    ∀ (buyers : List Buyer) (acc : List MatchRec),
      step3Go w [] buyers acc = acc := by
  intro buyers
  induction buyers with
  | nil => intro acc; rfl
  | cons b rest ih =>
    intro acc
    rw [step3Go, step3Buyer_nil_sellers]
    exact ih _

/-- With no sellers the three passes generate no matches at all. -/
theorem generatedMatches_nil_sellers (w : Weights) (buyers : List Buyer) :
    generatedMatches w buyers [] = [] := by
  unfold generatedMatches
  rw [step1Go_nil_sellers]
  show step3Go w [] buyers [] = []
  rw [step3Go_nil_sellers]

/-- C6: the generator conjunct of the claim fails on the code — on empty
rosters (and more generally whenever the seller roster is empty, so that no
match is generated) `find_matches` raises `ZeroDivisionError` in its summary
print at src/matching_algorithm.py line 203 (modelled `none`) instead of
returning the empty match list; `create_schedule` and
`get_matching_statistics` do return their explicit empty results
(`[]` and the marker `{'error': 'No matches found'}`) without failing. -/
theorem C6_empty_inputs :
    (∀ w : Weights, find_matches w [] [] = none) ∧
    (∀ (w : Weights) (buyers : List Buyer), find_matches w buyers [] = none) ∧
    (∀ (buyers : List Buyer) (sellers : List Seller) (ts : List TimeSlot),
      create_schedule [] buyers sellers ts = ([], [])) ∧
    (∀ mts : List Meeting,
      get_matching_statistics [] mts = StatsResult.error "No matches found") := by
  have hgen : ∀ (w : Weights) (buyers : List Buyer), find_matches w buyers [] = none := by
    intro w buyers
    simp only [find_matches, generatedMatches_nil_sellers, List.length_nil]
    rfl
  refine ⟨fun w => hgen w [], hgen, ?_, fun _ => rfl⟩
  intro buyers sellers ts
  simp [create_schedule, sortedMatches, create_schedule_go]

/-- C7 (amended): for every non-empty match list the statistics satisfy
`scheduled + unscheduled = total`, and `scheduling_efficiency` equals
`scheduled/total*100` rounded to two decimal places (Python's
`round(x, 2)`), not the unrounded ratio. -/
theorem C7_stats_identities (ml : List MatchRec) (mts : List Meeting)
    (h : ml ≠ []) :
    ∃ st, get_matching_statistics ml mts = StatsResult.stats st ∧
      (st.scheduled_meetings : ℤ) + st.unscheduled_matches = (st.total_matches : ℤ) ∧
      st.total_matches = ml.length ∧
      st.scheduled_meetings = mts.length ∧
      st.scheduling_efficiency = round2 (((mts.length : ℚ) / (ml.length : ℚ)) * 100) := by
  simp only [get_matching_statistics, if_neg h]
  refine ⟨_, rfl, ?_, rfl, rfl, ?_⟩
  · show (mts.length : ℤ) + ((ml.length : ℤ) - (mts.length : ℤ)) = (ml.length : ℤ)
    ring
  · show round2 (if 0 < ml.length then ((mts.length : ℚ) / (ml.length : ℚ)) * 100 else 0) = _
    rw [if_pos (List.length_pos.mpr h)]

def cex7m (i : String) : MatchRec :=
  { buyer_id := i, seller_id := "s", match_type := "ai_suggestion",
    compatibility_score := 50, priority := 3 }

def w7ml : List MatchRec := [cex7m "w"]

/-- Witness for the amended C7 at one match and no meetings. -/
theorem C7_stats_identities_witness :
    w7ml ≠ [] ∧
    (∃ st, get_matching_statistics w7ml ([] : List Meeting) = StatsResult.stats st ∧
      (st.scheduled_meetings : ℤ) + st.unscheduled_matches = (st.total_matches : ℤ) ∧
      st.total_matches = w7ml.length ∧
      st.scheduled_meetings = ([] : List Meeting).length ∧
      st.scheduling_efficiency =
        round2 (((([] : List Meeting).length : ℚ) / (w7ml.length : ℚ)) * 100)) :=
  ⟨by simp [w7ml], C7_stats_identities _ _ (by simp [w7ml])⟩

/-- Extract the `scheduling_efficiency` field (0 on the error marker). -/
def statsEfficiency : StatsResult → ℚ
  | .error _ => 0
  | .stats st => st.scheduling_efficiency

def cex7Matches : List MatchRec := [cex7m "a", cex7m "b", cex7m "c"]

def cex7Meetings : List Meeting :=
  [{ buyer_id := "a", seller_id := "s", time_slot := "t1", date := "d",
     time := "09:00", duration := 15, match_type := "ai_suggestion",
     compatibility_score := 50, priority := 3 }]

/-- Counterexample refuting C7 as stated: with 3 matches and 1 scheduled
meeting the stored `scheduling_efficiency` is 33.33 (rounded to two
decimals), not `1/3*100`. -/
theorem C7_stats_counterexample :
    statsEfficiency (get_matching_statistics cex7Matches cex7Meetings) = 3333/100 ∧
    ((cex7Meetings.length : ℚ) / (cex7Matches.length : ℚ)) * 100 ≠ 3333/100 := by
  have hf : ⌊(10000/3 : ℚ)⌋ = 3333 := by
    rw [Int.floor_eq_iff]
    constructor <;> norm_num
  have hr : round2 ((100 : ℚ)/3) = 3333/100 := by
    have hq : ((100 : ℚ)/3) * 100 = 10000/3 := by ring
    simp only [round2, hq, roundHalfEven, hf]
    rw [if_pos (by norm_num)]
    norm_num
  constructor
  · simp only [get_matching_statistics, cex7Matches, cex7Meetings, cex7m]
    rw [if_neg (by simp)]
    norm_num [statsEfficiency, hr]
  · norm_num [cex7Matches, cex7Meetings, cex7m]

/-! ### Scheduler: spec-side description and refinement -/

/-- The processing order stated by the spec for the scheduler: priority
ascending, compatibility score descending. -/
def specLE (x y : MatchRec) : Prop :=
  x.priority < y.priority ∨
    (x.priority = y.priority ∧ y.compatibility_score ≤ x.compatibility_score)

/-- A buyer already holds the given slot in one of the meetings so far. -/
def buyerHolds (meetings : List Meeting) (bid slot : String) : Bool :=
  meetings.any (fun mt => decide (mt.buyer_id = bid ∧ mt.time_slot = slot))

/-- A seller already holds the given slot in one of the meetings so far. -/
def sellerHolds (meetings : List Meeting) (sid slot : String) : Bool :=
  meetings.any (fun mt => decide (mt.seller_id = sid ∧ mt.time_slot = slot))

/-- Greedy pass exactly as the spec words it: each match in turn is assigned
to the first listed slot at which neither its buyer nor its seller already
holds a meeting (judged directly from the meetings built so far), gets
marked scheduled with that slot recorded, and is otherwise skipped — no
retry, no backtracking, no reassignment. -/
def scheduleSpecGo (slots : List TimeSlot) (ms : List MatchRec)
    (meetings : List Meeting) (processed : List MatchRec) :
    List Meeting × List MatchRec :=
  match ms with
  | [] => (meetings, processed)
  | m :: rest =>
    match slots.find? (fun ts =>
        !(buyerHolds meetings m.buyer_id ts.id) &&
        !(sellerHolds meetings m.seller_id ts.id)) with
    | some ts =>
      scheduleSpecGo slots rest (meetings ++ [toMeeting m ts])
        (processed ++ [{ m with meeting_scheduled := true, time_slot := some ts.id }])
    | none => scheduleSpecGo slots rest meetings (processed ++ [m])

/-- Spec-side scheduler: the sorted matches fed through the greedy pass. -/
def scheduleSpec (matchList : List MatchRec) (slots : List TimeSlot) :
    List Meeting × List MatchRec :=
  scheduleSpecGo slots (sortedMatches matchList) [] []

theorem find?_congr_local {α : Type} (l : List α) (p q : α → Bool)
    (h : ∀ x ∈ l, p x = q x) : l.find? p = l.find? q := by
  induction l with
  | nil => rfl
  | cons a t ih =>
    rw [List.find?_cons, List.find?_cons, h a (List.mem_cons_self a t)]
    cases q a
    · exact ih fun x hx => h x (List.mem_cons_of_mem a hx)
    · rfl

theorem schedUpdate_mem (f : String → List String) (k v : String) (bid t : String) :
    t ∈ schedUpdate f k v bid ↔ (t ∈ f bid ∨ (bid = k ∧ t = v)) := by
  unfold schedUpdate
  by_cases h : bid = k
  · subst h
    simp
  · simp [h]

theorem buyerHolds_append (meetings : List Meeting) (mt : Meeting) (bid t : String) :
    buyerHolds (meetings ++ [mt]) bid t =
      (buyerHolds meetings bid t || decide (mt.buyer_id = bid ∧ mt.time_slot = t)) := by
  unfold buyerHolds
  rw [List.any_append]
  simp

theorem sellerHolds_append (meetings : List Meeting) (mt : Meeting) (sid t : String) :
    sellerHolds (meetings ++ [mt]) sid t =
      (sellerHolds meetings sid t || decide (mt.seller_id = sid ∧ mt.time_slot = t)) := by
  unfold sellerHolds
  rw [List.any_append]
  simp

/-- The busy-list bookkeeping of the source scheduler coincides with
re-scanning the meetings built so far, as the spec words it. -/
theorem create_schedule_go_eq_spec (slots : List TimeSlot) (ms : List MatchRec) :
    ∀ (meetings : List Meeting) (bsched ssched : String → List String)
      (processed : List MatchRec),
      (∀ bid t, t ∈ bsched bid ↔ buyerHolds meetings bid t = true) →
      (∀ sid t, t ∈ ssched sid ↔ sellerHolds meetings sid t = true) →
      create_schedule_go slots ms meetings bsched ssched processed =
        scheduleSpecGo slots ms meetings processed := by
  induction ms with
  | nil => intro meetings bsched ssched processed _ _; rfl
  | cons m rest ih =>
    intro meetings bsched ssched processed hb hs
    have hpred : ∀ ts ∈ slots,
        (decide (ts.id ∉ bsched m.buyer_id) && decide (ts.id ∉ ssched m.seller_id)) =
        (!(buyerHolds meetings m.buyer_id ts.id) &&
         !(sellerHolds meetings m.seller_id ts.id)) := by
      intro ts _
      have h1 := hb m.buyer_id ts.id
      have h2 := hs m.seller_id ts.id
      cases hB : buyerHolds meetings m.buyer_id ts.id <;>
        cases hS : sellerHolds meetings m.seller_id ts.id <;>
          simp_all
    rw [create_schedule_go, scheduleSpecGo,
      find?_congr_local slots _ _ hpred]
    cases hfind : slots.find? (fun ts =>
        !(buyerHolds meetings m.buyer_id ts.id) &&
        !(sellerHolds meetings m.seller_id ts.id)) with
    | none => exact ih meetings bsched ssched (processed ++ [m]) hb hs
    | some ts =>
      apply ih
      · intro bid t
        rw [schedUpdate_mem, buyerHolds_append, hb bid t]
        have : (toMeeting m ts).buyer_id = m.buyer_id := rfl
        have ht : (toMeeting m ts).time_slot = ts.id := rfl
        rw [Bool.or_eq_true, decide_eq_true_eq, this, ht]
        constructor
        · rintro (h | ⟨h1, h2⟩)
          · exact Or.inl h
          · exact Or.inr ⟨h1.symm, h2.symm⟩
        · rintro (h | ⟨h1, h2⟩)
          · exact Or.inl h
          · exact Or.inr ⟨h1.symm, h2.symm⟩
      · intro sid t
        rw [schedUpdate_mem, sellerHolds_append, hs sid t]
        have : (toMeeting m ts).seller_id = m.seller_id := rfl
        have ht : (toMeeting m ts).time_slot = ts.id := rfl
        rw [Bool.or_eq_true, decide_eq_true_eq, this, ht]
        constructor
        · rintro (h | ⟨h1, h2⟩)
          · exact Or.inl h
          · exact Or.inr ⟨h1.symm, h2.symm⟩
        · rintro (h | ⟨h1, h2⟩)
          · exact Or.inl h
          · exact Or.inr ⟨h1.symm, h2.symm⟩

/-- Theorem: `create_schedule` equals the spec-side greedy scheduler. -/
theorem create_schedule_eq_spec (matchList : List MatchRec) (buyers : List Buyer)
    (sellers : List Seller) (slots : List TimeSlot) :
    create_schedule matchList buyers sellers slots = scheduleSpec matchList slots := by
  unfold create_schedule scheduleSpec
  exact create_schedule_go_eq_spec slots (sortedMatches matchList) [] _ _ []
    (by intro bid t; simp [buyerHolds]) (by intro sid t; simp [sellerHolds])

/-- The scheduler's Bool sort key is transitive. -/
theorem schedKey_trans (a b c : MatchRec)
    (hab : decide (a.priority < b.priority ∨
      (a.priority = b.priority ∧ b.compatibility_score ≤ a.compatibility_score)) = true)
    (hbc : decide (b.priority < c.priority ∨
      (b.priority = c.priority ∧ c.compatibility_score ≤ b.compatibility_score)) = true) :
    decide (a.priority < c.priority ∨
      (a.priority = c.priority ∧ c.compatibility_score ≤ a.compatibility_score)) = true := by
  rw [decide_eq_true_eq] at hab hbc ⊢
  rcases hab with h1 | ⟨h1, h1s⟩ <;> rcases hbc with h2 | ⟨h2, h2s⟩
  · exact Or.inl (h1.trans h2)
  · exact Or.inl (h2 ▸ h1)
  · exact Or.inl (h1 ▸ h2)
  · exact Or.inr ⟨h1.trans h2, h2s.trans h1s⟩

/-- The scheduler's Bool sort key is total. -/
theorem schedKey_total (a b : MatchRec) :
    (decide (a.priority < b.priority ∨
      (a.priority = b.priority ∧ b.compatibility_score ≤ a.compatibility_score)) ||
     decide (b.priority < a.priority ∨
      (b.priority = a.priority ∧ a.compatibility_score ≤ b.compatibility_score))) = true := by
  rw [Bool.or_eq_true, decide_eq_true_eq, decide_eq_true_eq]
  rcases lt_trichotomy a.priority b.priority with h | h | h
  · exact Or.inl (Or.inl h)
  · rcases le_total a.compatibility_score b.compatibility_score with hs | hs
    · exact Or.inr (Or.inr ⟨h.symm, hs⟩)
    · exact Or.inl (Or.inr ⟨h, hs⟩)
  · exact Or.inr (Or.inl h)

/-- C5: the scheduler processes the matches in order of priority ascending
then compatibility descending (a stable sort of the input), assigns each to
the first slot free for both parties, marks it scheduled with that slot, and
skips a match with no free slot — equal, marking included, to the spec-side
greedy pass `scheduleSpec`. -/
theorem C5_scheduler_greedy_first_fit (matchList : List MatchRec)
    (buyers : List Buyer) (sellers : List Seller) (slots : List TimeSlot) :
    create_schedule matchList buyers sellers slots = scheduleSpec matchList slots ∧
    List.Pairwise specLE (sortedMatches matchList) ∧
    (sortedMatches matchList).Perm matchList := by
  refine ⟨create_schedule_eq_spec matchList buyers sellers slots, ?_, ?_⟩
  · have h := @List.sorted_mergeSort MatchRec
      (fun x y : MatchRec => decide (x.priority < y.priority ∨
        (x.priority = y.priority ∧ y.compatibility_score ≤ x.compatibility_score)))
      schedKey_trans schedKey_total matchList
    unfold sortedMatches
    exact h.imp (fun hab => by rwa [decide_eq_true_eq] at hab)
  · exact List.mergeSort_perm matchList _

/-- No-conflict relation between two meetings: sharing a slot forces
distinct buyers and distinct sellers. -/
def noConf (m1 m2 : Meeting) : Prop :=
  m1.time_slot = m2.time_slot → m1.buyer_id ≠ m2.buyer_id ∧ m1.seller_id ≠ m2.seller_id

theorem scheduleSpecGo_pairwise (slots : List TimeSlot) (ms : List MatchRec) :
    ∀ (meetings : List Meeting) (processed : List MatchRec),
      meetings.Pairwise noConf →
      ((scheduleSpecGo slots ms meetings processed).1).Pairwise noConf := by
  induction ms with
  | nil => intro meetings processed h; exact h
  | cons m rest ih =>
    intro meetings processed h
    rw [scheduleSpecGo]
    cases hfind : slots.find? (fun ts =>
        !(buyerHolds meetings m.buyer_id ts.id) &&
        !(sellerHolds meetings m.seller_id ts.id)) with
    | none => exact ih meetings (processed ++ [m]) h
    | some ts =>
      apply ih
      have hp := List.find?_some hfind
      rw [Bool.and_eq_true, Bool.not_eq_true', Bool.not_eq_true'] at hp
      have hbfree : ∀ mt ∈ meetings, ¬(mt.buyer_id = m.buyer_id ∧ mt.time_slot = ts.id) := by
        intro mt hmt hcontr
        have : buyerHolds meetings m.buyer_id ts.id = true := by
          unfold buyerHolds
          rw [List.any_eq_true]
          exact ⟨mt, hmt, by rw [decide_eq_true_eq]; exact hcontr⟩
        rw [hp.1] at this
        exact Bool.false_ne_true this
      have hsfree : ∀ mt ∈ meetings, ¬(mt.seller_id = m.seller_id ∧ mt.time_slot = ts.id) := by
        intro mt hmt hcontr
        have : sellerHolds meetings m.seller_id ts.id = true := by
          unfold sellerHolds
          rw [List.any_eq_true]
          exact ⟨mt, hmt, by rw [decide_eq_true_eq]; exact hcontr⟩
        rw [hp.2] at this
        exact Bool.false_ne_true this
      rw [List.pairwise_append]
      refine ⟨h, List.pairwise_singleton _ _, ?_⟩
      intro a ha mt hmt
      rw [List.mem_singleton] at hmt
      subst hmt
      intro hslot
      have hts : (toMeeting m ts).time_slot = ts.id := rfl
      rw [hts] at hslot
      constructor
      · intro hbuy
        exact hbfree a ha ⟨by rw [hbuy]; rfl, hslot⟩
      · intro hsell
        exact hsfree a ha ⟨by rw [hsell]; rfl, hslot⟩

/-- C3: no two distinct meetings produced by `create_schedule` share both a
time slot and a buyer, nor both a time slot and a seller. -/
theorem C3_no_slot_conflicts (matchList : List MatchRec) (buyers : List Buyer)
    (sellers : List Seller) (slots : List TimeSlot)
    (hslots : (slots.map (fun ts => ts.id)).Nodup) :
    ((create_schedule matchList buyers sellers slots).1).Pairwise noConf := by
  rw [create_schedule_eq_spec matchList buyers sellers slots]
  exact scheduleSpecGo_pairwise slots (sortedMatches matchList) [] [] List.Pairwise.nil

/-- Witness for C3 at a concrete schedule of two competing matches. -/
def w3Slots : List TimeSlot :=
  [{ id := "t1", date := "d1", time := "09:00", duration := 15 },
   { id := "t2", date := "d1", time := "09:15", duration := 15 }]

def w3Matches : List MatchRec :=
  [{ buyer_id := "b1", seller_id := "s1", match_type := "double_match",
     compatibility_score := 80, priority := 1 },
   { buyer_id := "b1", seller_id := "s2", match_type := "seller_choice",
     compatibility_score := 70, priority := 2 }]

theorem C3_no_slot_conflicts_witness :
    (w3Slots.map (fun ts => ts.id)).Nodup ∧
    ((create_schedule w3Matches [] [] w3Slots).1).Pairwise noConf :=
  ⟨by decide, C3_no_slot_conflicts w3Matches [] [] w3Slots (by decide)⟩

/-! ### Match generation: bookkeeping helpers -/

/-- The (buyer id, seller id) pair of each match. -/
def pairsOf (ms : List MatchRec) : List (String × String) :=
  ms.map (fun m => (m.buyer_id, m.seller_id))

theorem buyerMeetings_append (l1 l2 : List MatchRec) (bid : String) :
    buyerMeetings (l1 ++ l2) bid = buyerMeetings l1 bid ++ buyerMeetings l2 bid :=
  List.filter_append l1 l2

theorem buyerMeetings_single_ne (m : MatchRec) (bid : String) (h : m.buyer_id ≠ bid) :
    buyerMeetings [m] bid = [] := by
  simp [buyerMeetings, h]

theorem buyerMeetings_single_eq (m : MatchRec) (bid : String) (h : m.buyer_id = bid) :
    buyerMeetings [m] bid = [m] := by
  simp [buyerMeetings, h]

theorem msIds_append (l1 l2 : List MatchRec) (bid : String) :
    msIds (l1 ++ l2) bid = msIds l1 bid ++ msIds l2 bid := by
  unfold msIds
  rw [buyerMeetings_append, List.map_append]

theorem cntB_eq_length_msIds (ms : List MatchRec) (bid : String) :
    cntB ms bid = (msIds ms bid).length :=
  (List.length_map _ _).symm

theorem msIds_single_ne (m : MatchRec) (bid : String) (h : m.buyer_id ≠ bid) :
    msIds [m] bid = [] := by
  unfold msIds
  rw [buyerMeetings_single_ne _ _ h]
  rfl

theorem msIds_single_eq (m : MatchRec) (bid : String) (h : m.buyer_id = bid) :
    msIds [m] bid = [m.seller_id] := by
  unfold msIds
  rw [buyerMeetings_single_eq _ _ h]
  rfl

theorem pair_mem_iff (ms : List MatchRec) (bid sid : String) :
    (bid, sid) ∈ pairsOf ms ↔ sid ∈ msIds ms bid := by
  unfold pairsOf msIds buyerMeetings
  constructor
  · intro h
    rw [List.mem_map] at h
    obtain ⟨m, hm, he⟩ := h
    rw [Prod.mk.injEq] at he
    rw [List.mem_map]
    exact ⟨m, List.mem_filter.mpr ⟨hm, by rw [decide_eq_true_eq]; exact he.1⟩, he.2⟩
  · intro h
    rw [List.mem_map] at h
    obtain ⟨m, hm, he⟩ := h
    rw [List.mem_filter, decide_eq_true_eq] at hm
    rw [List.mem_map]
    exact ⟨m, hm.1, by rw [hm.2, he]⟩

/-! ### Step 1: closed form -/

/-- All double matches one buyer collects in step 1. -/
def doubleList (w : Weights) (b : Buyer) (sellers : List Seller) : List MatchRec :=
  (sellers.filter (fun s => decide (doubleSelected b s))).map (mkDoubleMatch w b)

/-- Closed form of step 1: concatenation of each buyer's double matches. -/
def step1All (w : Weights) (buyers : List Buyer) (sellers : List Seller) :
    List MatchRec :=
  match buyers with
  | [] => []
  | b :: rest => doubleList w b sellers ++ step1All w rest sellers

theorem step1Buyer_eq (w : Weights) (b : Buyer) (sellers : List Seller) :
    ∀ acc, step1Buyer w b sellers acc = acc ++ doubleList w b sellers := by
  induction sellers with
  | nil => intro acc; simp [step1Buyer, doubleList]
  | cons s rest ih =>
    intro acc
    rw [step1Buyer, doubleList, List.filter_cons]
    by_cases h : doubleSelected b s
    · rw [if_pos h, ih]
      simp [h, doubleList, List.append_assoc]
    · rw [if_neg h, ih]
      simp [h, doubleList]

theorem step1Go_eq (w : Weights) (sellers : List Seller) :
    ∀ (buyers : List Buyer) (acc), step1Go w buyers sellers acc = acc ++ step1All w buyers sellers := by
  intro buyers
  induction buyers with
  | nil => intro acc; simp [step1Go, step1All]
  | cons b rest ih =>
    intro acc
    rw [step1Go, step1All, ih, step1Buyer_eq, List.append_assoc]

theorem buyerMeetings_doubleList (w : Weights) (b : Buyer) (sellers : List Seller)
    (bid : String) :
    buyerMeetings (doubleList w b sellers) bid =
      if b.id = bid then doubleList w b sellers else [] := by
  unfold buyerMeetings doubleList
  rw [List.filter_map]
  by_cases h : b.id = bid
  · rw [if_pos h]
    congr 1
    apply List.filter_eq_self.mpr
    intro s _
    rw [Function.comp_apply, decide_eq_true_eq]
    exact h
  · rw [if_neg h]
    rw [show List.filter _ (sellers.filter fun s => decide (doubleSelected b s)) = [] from ?_,
      List.map_nil]
    apply List.filter_eq_nil.mpr
    intro s _
    rw [Function.comp_apply]
    simp only [decide_eq_true_eq]
    exact h

theorem msIds_doubleList (w : Weights) (b : Buyer) (sellers : List Seller) :
    msIds (doubleList w b sellers) b.id =
      (sellers.filter (fun s => decide (doubleSelected b s))).map (fun s => s.id) := by
  unfold msIds
  rw [buyerMeetings_doubleList, if_pos rfl]
  unfold doubleList
  rw [List.map_map]
  rfl

theorem step1All_append (w : Weights) (sellers : List Seller) (l1 l2 : List Buyer) :
    step1All w (l1 ++ l2) sellers = step1All w l1 sellers ++ step1All w l2 sellers := by
  induction l1 with
  | nil => simp [step1All]
  | cons b rest ih =>
    rw [List.cons_append, step1All, step1All, ih, List.append_assoc]

theorem buyerMeetings_step1All_of_ne (w : Weights) (sellers : List Seller)
    (bid : String) :
    ∀ bl : List Buyer, (∀ b' ∈ bl, b'.id ≠ bid) →
      buyerMeetings (step1All w bl sellers) bid = [] := by
  intro bl
  induction bl with
  | nil => intro _; rfl
  | cons b rest ih =>
    intro h
    rw [step1All, buyerMeetings_append, buyerMeetings_doubleList,
      if_neg (h b (List.mem_cons_self b rest)), ih fun b' hb' => h b' (List.mem_cons_of_mem b hb'),
      List.nil_append]

theorem buyerMeetings_step1All (w : Weights) (buyers : List Buyer)
    (sellers : List Seller) (b : Buyer) (hb : b ∈ buyers)
    (hB : (buyers.map (fun x => x.id)).Nodup) :
    buyerMeetings (step1All w buyers sellers) b.id = doubleList w b sellers := by
  obtain ⟨pre, post, rfl⟩ := List.append_of_mem hb
  have hBmap : ((pre.map (fun x => x.id)) ++ b.id :: (post.map (fun x => x.id))).Nodup := by
    simpa using hB
  rw [List.nodup_append] at hBmap
  have hpre : ∀ b' ∈ pre, b'.id ≠ b.id := by
    intro b' hb' he
    exact hBmap.2.2 (by rw [← he]; exact List.mem_map_of_mem _ hb')
      (List.mem_cons_self _ _)
  have hpost : ∀ b' ∈ post, b'.id ≠ b.id := by
    intro b' hb' he
    have h2 := hBmap.2.1
    rw [List.nodup_cons] at h2
    exact h2.1 (by rw [← he]; exact List.mem_map_of_mem _ hb')
  rw [step1All_append, buyerMeetings_append,
    buyerMeetings_step1All_of_ne w sellers b.id pre hpre, List.nil_append,
    step1All, buyerMeetings_append, buyerMeetings_doubleList, if_pos rfl,
    buyerMeetings_step1All_of_ne w sellers b.id post hpost, List.append_nil]

/-! ### Step 2: per-buyer effect -/

/-- The seller-choice guard of step 2 tests exactly membership of the seller
id among the buyer's matched sellers. -/
theorem step2_guard_iff (acc : List MatchRec) (bid sid : String) :
    ((buyerMeetings acc bid).any
      (fun m => decide (m.buyer_id = bid ∧ m.seller_id = sid)) = true) ↔
    sid ∈ msIds acc bid := by
  rw [List.any_eq_true]
  constructor
  · rintro ⟨m, hm, hp⟩
    rw [decide_eq_true_eq] at hp
    exact List.mem_map.mpr ⟨m, hm, hp.2⟩
  · intro h
    obtain ⟨m, hm, he⟩ := List.mem_map.mp h
    have hbid : m.buyer_id = bid := by
      have := (List.mem_filter.mp hm).2
      rwa [decide_eq_true_eq] at this
    exact ⟨m, hm, by rw [decide_eq_true_eq]; exact ⟨hbid, he⟩⟩

theorem msIds_step2Entry_ne (w : Weights) (buyers : List Buyer) (s : Seller)
    (acc : List MatchRec) (i bid : String) (h : i ≠ bid) :
    msIds (step2Entry w buyers s acc i) bid = msIds acc bid := by
  cases hf : buyers.find? (fun b => decide (b.id = i)) with
  | none => simp only [step2Entry, hf]
  | some y =>
    simp only [step2Entry, hf]
    split_ifs with h1 h2
    · rfl
    · rw [msIds_append, msIds_single_ne _ _ h, List.append_nil]
    · rfl

theorem msIds_step2Entry_eq (w : Weights) (buyers : List Buyer) (s : Seller)
    (acc : List MatchRec) (bid : String)
    (hfound : ∃ y, buyers.find? (fun b => decide (b.id = bid)) = some y) :
    msIds (step2Entry w buyers s acc bid) bid =
      if s.id ∈ msIds acc bid ∨ 5 ≤ (msIds acc bid).length then msIds acc bid
      else msIds acc bid ++ [s.id] := by
  obtain ⟨y, hy⟩ := hfound
  simp only [step2Entry, hy]
  by_cases hmem : s.id ∈ msIds acc bid
  · rw [if_pos ((step2_guard_iff acc bid s.id).mpr hmem), if_pos (Or.inl hmem)]
  · have hg : (buyerMeetings acc bid).any
        (fun m => decide (m.buyer_id = bid ∧ m.seller_id = s.id)) = false := by
      rw [← Bool.not_eq_true]
      intro hc
      exact hmem ((step2_guard_iff acc bid s.id).mp hc)
    rw [hg]
    have hlen_eq : (buyerMeetings acc bid).length = (msIds acc bid).length :=
      (List.length_map _ _).symm
    by_cases hlen : (buyerMeetings acc bid).length < 5
    · rw [if_neg (by simp), if_pos hlen,
        if_neg (by push_neg; exact ⟨hmem, by omega⟩)]
      rw [msIds_append, msIds_single_eq _ _ rfl]
    · rw [if_neg (by simp), if_neg hlen, if_pos (Or.inr (by omega))]

theorem msIds_step2Ids_not_mem (w : Weights) (buyers : List Buyer) (s : Seller)
    (bid : String) :
    ∀ (ids : List String) (acc : List MatchRec), bid ∉ ids →
      msIds (step2Ids w buyers s ids acc) bid = msIds acc bid := by
  intro ids
  induction ids with
  | nil => intro acc _; rfl
  | cons i rest ih =>
    intro acc h
    rw [List.mem_cons] at h
    push_neg at h
    simp only [step2Ids]
    rw [ih _ h.2, msIds_step2Entry_ne w buyers s acc i bid (fun he => h.1 he.symm)]

theorem msIds_step2Ids_mem (w : Weights) (buyers : List Buyer) (s : Seller)
    (bid : String)
    (hfound : ∃ y, buyers.find? (fun b => decide (b.id = bid)) = some y) :
    ∀ (ids : List String) (acc : List MatchRec), bid ∈ ids → ids.Nodup →
      msIds (step2Ids w buyers s ids acc) bid =
        (if s.id ∈ msIds acc bid ∨ 5 ≤ (msIds acc bid).length then msIds acc bid
         else msIds acc bid ++ [s.id]) := by
  intro ids
  induction ids with
  | nil => intro acc h; exact absurd h (List.not_mem_nil bid)
  | cons i rest ih =>
    intro acc h hnd
    rw [List.nodup_cons] at hnd
    by_cases hi : i = bid
    · subst hi
      simp only [step2Ids]
      rw [msIds_step2Ids_not_mem w buyers s i rest _ hnd.1,
        msIds_step2Entry_eq w buyers s acc i hfound]
    · have hrest : bid ∈ rest := by
        rcases List.mem_cons.mp h with he | hr
        · exact absurd he.symm hi
        · exact hr
      simp only [step2Ids]
      rw [ih _ hrest hnd.2, msIds_step2Entry_ne w buyers s acc i bid hi]

/-- Sellers contributing a `seller_choice` for buyer `b` in step 2: sellers
that selected `b` without a mutual selection. -/
def scPred (b : Buyer) (s : Seller) : Prop :=
  b.id ∈ s.selected_buyers.getD [] ∧ ¬ doubleSelected b s

instance (b : Buyer) (s : Seller) : Decidable (scPred b s) :=
  inferInstanceAs (Decidable (_ ∧ _))

/-- Count of eligible seller-choice sellers for a buyer in a seller list. -/
def eCount (b : Buyer) (sellers : List Seller) : ℕ :=
  (sellers.filter (fun s => decide (scPred b s))).length

/-- Master invariant for step 2, tracking one buyer's matched-seller ids. -/
theorem step2Go_master (w : Weights) (buyers : List Buyer) (b : Buyer)
    (sellers0 : List Seller)
    (hfound : ∃ y, buyers.find? (fun x => decide (x.id = b.id)) = some y) :
    ∀ (rem : List Seller) (acc : List MatchRec),
      (rem.map (fun s => s.id)).Nodup →
      (∀ s ∈ rem, s ∈ sellers0) →
      (msIds acc b.id).Nodup →
      (∀ x ∈ msIds acc b.id, x ∈ sellers0.map (fun s => s.id)) →
      (∀ s ∈ rem, doubleSelected b s → s.id ∈ msIds acc b.id) →
      (∀ s ∈ rem, s.id ∈ msIds acc b.id → doubleSelected b s) →
      (msIds (step2Go w buyers rem acc) b.id).Nodup ∧
      (∀ x ∈ msIds (step2Go w buyers rem acc) b.id, x ∈ sellers0.map (fun s => s.id)) ∧
      (msIds (step2Go w buyers rem acc) b.id).length =
        (if 5 ≤ (msIds acc b.id).length then (msIds acc b.id).length
         else min 5 ((msIds acc b.id).length + eCount b rem)) := by
  intro rem
  induction rem with
  | nil =>
    intro acc _ _ hN hdom _ _
    refine ⟨hN, hdom, ?_⟩
    simp only [step2Go, eCount, List.filter_nil, List.length_nil]
    split_ifs with h
    · rfl
    · omega
  | cons s rest ih =>
    intro acc hndup hsub hN hdom hdoub hfresh
    have hndup_rest : (rest.map (fun s => s.id)).Nodup := by
      rw [List.map_cons, List.nodup_cons] at hndup
      exact hndup.2
    have hs_not_in_rest : s.id ∉ rest.map (fun s => s.id) := by
      rw [List.map_cons, List.nodup_cons] at hndup
      exact hndup.1
    have hsub_rest : ∀ x ∈ rest, x ∈ sellers0 :=
      fun x hx => hsub x (List.mem_cons_of_mem s hx)
    simp only [step2Go]
    by_cases hbm : b.id ∈ s.selected_buyers.getD []
    · have hdd : b.id ∈ (s.selected_buyers.getD []).dedup := List.mem_dedup.mpr hbm
      have hE' := msIds_step2Ids_mem w buyers s b.id hfound
        ((s.selected_buyers.getD []).dedup) acc hdd (List.nodup_dedup _)
      by_cases hds : doubleSelected b s
      · have hmem : s.id ∈ msIds acc b.id := hdoub s (List.mem_cons_self s rest) hds
        rw [if_pos (Or.inl hmem)] at hE'
        have hcnt : eCount b (s :: rest) = eCount b rest := by
          unfold eCount
          rw [List.filter_cons, if_neg (by
            rw [decide_eq_true_eq]
            exact fun hc => hc.2 hds)]
        rw [hcnt]
        refine ih _ hndup_rest hsub_rest (by rw [hE']; exact hN) (by rw [hE']; exact hdom)
          (fun x hx hd => by rw [hE']; exact hdoub x (List.mem_cons_of_mem s hx) hd)
          (fun x hx hm => by rw [hE'] at hm; exact hfresh x (List.mem_cons_of_mem s hx) hm)
          |>.imp id (fun h => h.imp id (by rw [hE']; exact id))
      · have hnmem : s.id ∉ msIds acc b.id := fun hc =>
          hds (hfresh s (List.mem_cons_self s rest) hc)
        have hcnt : eCount b (s :: rest) = eCount b rest + 1 := by
          unfold eCount
          rw [List.filter_cons, if_pos (by
            rw [decide_eq_true_eq]
            exact ⟨hbm, hds⟩)]
          simp [Nat.add_comm]
        by_cases hlen : 5 ≤ (msIds acc b.id).length
        · rw [if_pos (Or.inr hlen)] at hE'
          have := ih _ hndup_rest hsub_rest (by rw [hE']; exact hN)
            (by rw [hE']; exact hdom)
            (fun x hx hd => by rw [hE']; exact hdoub x (List.mem_cons_of_mem s hx) hd)
            (fun x hx hm => by rw [hE'] at hm; exact hfresh x (List.mem_cons_of_mem s hx) hm)
          refine this.imp id (fun h => h.imp id ?_)
          rw [hE']
          intro hlenf
          rw [hlenf, if_pos hlen, if_pos hlen]
        · rw [if_neg (by push_neg; exact ⟨hnmem, by omega⟩)] at hE'
          have hN' : (msIds acc b.id ++ [s.id]).Nodup := by
            rw [List.nodup_append]
            exact ⟨hN, List.nodup_singleton _, by
              intro x hx hxs
              rw [List.mem_singleton] at hxs
              subst hxs
              exact hnmem hx⟩
          have hdom' : ∀ x ∈ msIds acc b.id ++ [s.id], x ∈ sellers0.map (fun s => s.id) := by
            intro x hx
            rcases List.mem_append.mp hx with h1 | h1
            · exact hdom x h1
            · rw [List.mem_singleton] at h1
              subst h1
              exact List.mem_map_of_mem _ (hsub s (List.mem_cons_self s rest))
          have hdoub' : ∀ x ∈ rest, doubleSelected b x → x.id ∈ msIds acc b.id ++ [s.id] :=
            fun x hx hd => List.mem_append.mpr
              (Or.inl (hdoub x (List.mem_cons_of_mem s hx) hd))
          have hfresh' : ∀ x ∈ rest, x.id ∈ msIds acc b.id ++ [s.id] → doubleSelected b x := by
            intro x hx hm
            rcases List.mem_append.mp hm with h1 | h1
            · exact hfresh x (List.mem_cons_of_mem s hx) h1
            · rw [List.mem_singleton] at h1
              exact absurd (h1 ▸ List.mem_map_of_mem (fun s => s.id) hx)
                hs_not_in_rest
          have := ih _ hndup_rest hsub_rest (by rw [hE']; exact hN')
            (by rw [hE']; exact hdom')
            (fun x hx hd => by rw [hE']; exact hdoub' x hx hd)
            (fun x hx hm => by rw [hE'] at hm; exact hfresh' x hx hm)
          refine this.imp id (fun h => h.imp id ?_)
          rw [hE']
          intro hlenf
          rw [hlenf, List.length_append, List.length_singleton, hcnt]
          push_neg at hlen
          split_ifs with h1 h2 <;> omega
    · have hdd : b.id ∉ (s.selected_buyers.getD []).dedup :=
        fun hc => hbm (List.mem_dedup.mp hc)
      have hE' := msIds_step2Ids_not_mem w buyers s b.id
        ((s.selected_buyers.getD []).dedup) acc hdd
      have hcnt : eCount b (s :: rest) = eCount b rest := by
        unfold eCount
        rw [List.filter_cons, if_neg (by
          rw [decide_eq_true_eq]
          exact fun hc => hbm hc.1)]
      rw [hcnt]
      refine ih _ hndup_rest hsub_rest (by rw [hE']; exact hN) (by rw [hE']; exact hdom)
        (fun x hx hd => by rw [hE']; exact hdoub x (List.mem_cons_of_mem s hx) hd)
        (fun x hx hm => by rw [hE'] at hm; exact hfresh x (List.mem_cons_of_mem s hx) hm)
        |>.imp id (fun h => h.imp id (by rw [hE']; exact id))

/-! ### Step 3: per-buyer effect -/

/-- Filtering the sellers not yet matched with a buyer leaves exactly
`|sellers| - |matched|` sellers, when ids are unique and every matched id
belongs to a seller. -/
theorem length_filter_not_mem_ids (sellers : List Seller) (E : List String)
    (hSN : (sellers.map (fun s => s.id)).Nodup) (hE : E.Nodup)
    (hdom : ∀ x ∈ E, x ∈ sellers.map (fun s => s.id)) :
    (sellers.filter (fun s => decide (s.id ∉ E))).length =
      sellers.length - E.length := by
  have hneg : sellers.filter (fun s => decide (s.id ∉ E)) =
      sellers.filter (fun s => !(decide (s.id ∈ E))) :=
    List.filter_congr fun s _ => decide_not
  have hsplit := (List.filter_append_perm (fun s => decide (s.id ∈ E)) sellers).length_eq
  rw [List.length_append] at hsplit
  have hposN : ((sellers.filter (fun s => decide (s.id ∈ E))).map
      (fun s => s.id)).Nodup :=
    List.Nodup.sublist ((List.filter_sublist sellers).map _) hSN
  have hmem : ∀ x, x ∈ (sellers.filter (fun s => decide (s.id ∈ E))).map
      (fun s => s.id) ↔ x ∈ E := by
    intro x
    constructor
    · intro hx
      obtain ⟨s, hs, he⟩ := List.mem_map.mp hx
      have := (List.mem_filter.mp hs).2
      rw [decide_eq_true_eq] at this
      exact he ▸ this
    · intro hx
      obtain ⟨s, hs, he⟩ := List.mem_map.mp (hdom x hx)
      refine List.mem_map.mpr ⟨s, List.mem_filter.mpr ⟨hs, ?_⟩, he⟩
      rw [decide_eq_true_eq, he]
      exact hx
  have hperm : ((sellers.filter (fun s => decide (s.id ∈ E))).map
      (fun s => s.id)).Perm E :=
    (List.perm_ext_iff_of_nodup hposN hE).mpr hmem
  have hlen1 : (sellers.filter (fun s => decide (s.id ∈ E))).length = E.length := by
    have := hperm.length_eq
    rwa [List.length_map] at this
  rw [hneg]
  omega

theorem buyerMeetings_map_mkAI (buyer : Buyer) (l : List (Seller × ℚ)) (bid : String) :
    buyerMeetings (l.map (mkAISuggestion buyer)) bid =
      if buyer.id = bid then l.map (mkAISuggestion buyer) else [] := by
  unfold buyerMeetings
  rw [List.filter_map]
  by_cases h : buyer.id = bid
  · rw [if_pos h]
    congr 1
    apply List.filter_eq_self.mpr
    intro p _
    rw [Function.comp_apply, decide_eq_true_eq]
    exact h
  · rw [if_neg h]
    rw [show List.filter _ l = [] from ?_, List.map_nil]
    apply List.filter_eq_nil.mpr
    intro p _
    rw [Function.comp_apply]
    simp only [decide_eq_true_eq]
    exact h

theorem msIds_map_mkAI (buyer : Buyer) (l : List (Seller × ℚ)) :
    msIds (l.map (mkAISuggestion buyer)) buyer.id = l.map (fun p => p.1.id) := by
  unfold msIds
  rw [buyerMeetings_map_mkAI, if_pos rfl, List.map_map]
  rfl

theorem msIds_step3Buyer_ne (w : Weights) (sellers : List Seller) (buyer : Buyer)
    (acc : List MatchRec) (bid : String) (h : buyer.id ≠ bid) :
    msIds (step3Buyer w sellers buyer acc) bid = msIds acc bid := by
  simp only [step3Buyer]
  split_ifs with hc
  · rw [msIds_append]
    unfold msIds
    rw [buyerMeetings_map_mkAI, if_neg h]
    simp
  · rfl

theorem msIds_step3Buyer_eq (w : Weights) (sellers : List Seller) (buyer : Buyer)
    (acc : List MatchRec)
    (hSN : (sellers.map (fun s => s.id)).Nodup)
    (hE : (msIds acc buyer.id).Nodup)
    (hdom : ∀ x ∈ msIds acc buyer.id, x ∈ sellers.map (fun s => s.id)) :
    (msIds (step3Buyer w sellers buyer acc) buyer.id).Nodup ∧
    (∀ x ∈ msIds (step3Buyer w sellers buyer acc) buyer.id,
      x ∈ sellers.map (fun s => s.id)) ∧
    (msIds (step3Buyer w sellers buyer acc) buyer.id).length =
      (if (msIds acc buyer.id).length < 5
       then (msIds acc buyer.id).length +
         min (5 - (msIds acc buyer.id).length)
           (sellers.length - (msIds acc buyer.id).length)
       else (msIds acc buyer.id).length) := by
  have hlen_eq : (buyerMeetings acc buyer.id).length = (msIds acc buyer.id).length :=
    (List.length_map _ _).symm
  have hmsid : (buyerMeetings acc buyer.id).map (fun m => m.seller_id) =
      msIds acc buyer.id := rfl
  by_cases hc : (buyerMeetings acc buyer.id).length < 5
  · have hstep : step3Buyer w sellers buyer acc =
        acc ++ ((((sellers.filter
          (fun s => decide (s.id ∉ msIds acc buyer.id))).map
            (fun s => (s, calculate_compatibility_score w buyer s))).mergeSort
              (fun x y => decide (y.2 ≤ x.2))).take
                (5 - (buyerMeetings acc buyer.id).length)).map (mkAISuggestion buyer) := by
      simp only [step3Buyer]
      rw [if_pos hc, hmsid]
    have hperm : ((((sellers.filter
        (fun s => decide (s.id ∉ msIds acc buyer.id))).map
          (fun s => (s, calculate_compatibility_score w buyer s))).mergeSort
            (fun x y => decide (y.2 ≤ x.2)))).Perm
        ((sellers.filter (fun s => decide (s.id ∉ msIds acc buyer.id))).map
          (fun s => (s, calculate_compatibility_score w buyer s))) :=
      List.mergeSort_perm _ _
    have hcomp : ((fun p : Seller × ℚ => p.1.id) ∘
        (fun s => (s, calculate_compatibility_score w buyer s))) =
        fun s : Seller => s.id := rfl
    have hids_perm : (((((sellers.filter
        (fun s => decide (s.id ∉ msIds acc buyer.id))).map
          (fun s => (s, calculate_compatibility_score w buyer s))).mergeSort
            (fun x y => decide (y.2 ≤ x.2)))).map (fun p => p.1.id)).Perm
        ((sellers.filter (fun s => decide (s.id ∉ msIds acc buyer.id))).map
          (fun s => s.id)) := by
      have h1 := hperm.map (fun p : Seller × ℚ => p.1.id)
      rwa [List.map_map, hcomp] at h1
    have havailN : ((sellers.filter
        (fun s => decide (s.id ∉ msIds acc buyer.id))).map (fun s => s.id)).Nodup :=
      List.Nodup.sublist ((List.filter_sublist sellers).map _) hSN
    have hsortedN := (hids_perm.nodup_iff).mpr havailN
    have htakeN : ((((((sellers.filter
        (fun s => decide (s.id ∉ msIds acc buyer.id))).map
          (fun s => (s, calculate_compatibility_score w buyer s))).mergeSort
            (fun x y => decide (y.2 ≤ x.2)))).take
              (5 - (buyerMeetings acc buyer.id).length)).map
                (fun p => p.1.id)).Nodup :=
      List.Nodup.sublist ((List.take_sublist _ _).map _) hsortedN
    have hbatch_mem : ∀ x ∈ (((((sellers.filter
        (fun s => decide (s.id ∉ msIds acc buyer.id))).map
          (fun s => (s, calculate_compatibility_score w buyer s))).mergeSort
            (fun x y => decide (y.2 ≤ x.2)))).take
              (5 - (buyerMeetings acc buyer.id).length)).map (fun p => p.1.id),
        x ∈ sellers.map (fun s => s.id) ∧ x ∉ msIds acc buyer.id := by
      intro x hx
      have hx1 : x ∈ (((((sellers.filter
          (fun s => decide (s.id ∉ msIds acc buyer.id))).map
            (fun s => (s, calculate_compatibility_score w buyer s))).mergeSort
              (fun x y => decide (y.2 ≤ x.2)))).map (fun p => p.1.id)) :=
        ((List.take_sublist _ _).map _).subset hx
      have hx2 : x ∈ (sellers.filter
          (fun s => decide (s.id ∉ msIds acc buyer.id))).map (fun s => s.id) :=
        hids_perm.mem_iff.mp hx1
      obtain ⟨s, hs, he⟩ := List.mem_map.mp hx2
      have hcond := (List.mem_filter.mp hs).2
      rw [decide_eq_true_eq] at hcond
      exact ⟨he ▸ List.mem_map_of_mem _ (List.mem_filter.mp hs).1, he ▸ hcond⟩
    rw [hstep, msIds_append, msIds_map_mkAI]
    constructor
    · rw [List.nodup_append]
      refine ⟨hE, htakeN, ?_⟩
      intro x hx hx2
      exact (hbatch_mem x hx2).2 hx
    constructor
    · intro x hx
      rcases List.mem_append.mp hx with h1 | h1
      · exact hdom x h1
      · exact (hbatch_mem x h1).1
    · rw [List.length_append, List.length_map, List.length_take,
        hperm.length_eq, List.length_map,
        length_filter_not_mem_ids sellers (msIds acc buyer.id) hSN hE hdom,
        if_pos (by omega)]
      omega
  · have hstep : step3Buyer w sellers buyer acc = acc := by
      simp only [step3Buyer]
      rw [if_neg hc]
    rw [hstep, if_neg (by omega)]
    exact ⟨hE, hdom, rfl⟩

theorem msIds_step3Go_not_mem (w : Weights) (sellers : List Seller) (bid : String) :
    ∀ (rem : List Buyer) (acc : List MatchRec), (∀ b' ∈ rem, b'.id ≠ bid) →
      msIds (step3Go w sellers rem acc) bid = msIds acc bid := by
  intro rem
  induction rem with
  | nil => intro acc _; rfl
  | cons b' rest ih =>
    intro acc h
    simp only [step3Go]
    rw [ih _ fun x hx => h x (List.mem_cons_of_mem b' hx),
      msIds_step3Buyer_ne w sellers b' acc bid (h b' (List.mem_cons_self b' rest))]

/-- Master lemma for step 3: the final per-buyer match count. -/
theorem step3Go_master (w : Weights) (sellers : List Seller) (b : Buyer)
    (hSN : (sellers.map (fun s => s.id)).Nodup) :
    ∀ (rem : List Buyer) (acc : List MatchRec), b ∈ rem →
      (rem.map (fun x => x.id)).Nodup →
      (msIds acc b.id).Nodup →
      (∀ x ∈ msIds acc b.id, x ∈ sellers.map (fun s => s.id)) →
      (msIds (step3Go w sellers rem acc) b.id).length =
        (if (msIds acc b.id).length < 5
         then (msIds acc b.id).length +
           min (5 - (msIds acc b.id).length)
             (sellers.length - (msIds acc b.id).length)
         else (msIds acc b.id).length) := by
  intro rem
  induction rem with
  | nil => intro acc h; exact absurd h (List.not_mem_nil b)
  | cons b' rest ih =>
    intro acc hb hndup hE hdom
    rw [List.map_cons, List.nodup_cons] at hndup
    simp only [step3Go]
    by_cases hid : b'.id = b.id
    · have hrest_ne : ∀ x ∈ rest, x.id ≠ b.id := by
        intro x hx he
        exact hndup.1 (by rw [hid, ← he]; exact List.mem_map_of_mem _ hx)
      rw [msIds_step3Go_not_mem w sellers b.id rest _ hrest_ne]
      have := msIds_step3Buyer_eq w sellers b' acc hSN (hid ▸ hE) (hid ▸ hdom)
      rw [hid] at this
      exact this.2.2
    · have hbrest : b ∈ rest := by
        rcases List.mem_cons.mp hb with he | hr
        · exact absurd (he ▸ rfl) (Ne.symm hid)
        · exact hr
      have hkeep := msIds_step3Buyer_ne w sellers b' acc b.id hid
      rw [ih _ hbrest hndup.2 (by rw [hkeep]; exact hE) (by rw [hkeep]; exact hdom),
        hkeep]

/-- Number of sellers in mutual selection with a buyer (its double
matches). -/
def dCount (b : Buyer) (sellers : List Seller) : ℕ :=
  (sellers.filter (fun s => decide (doubleSelected b s))).length

/-- Count formula for the generated match list: with unique ids every buyer
collects exactly `max (min 5 |sellers|) (its double matches)` matches over
the three passes. -/
theorem cnt_generatedMatches (w : Weights) (buyers : List Buyer)
    (sellers : List Seller) (b : Buyer) (hb : b ∈ buyers)
    (hB : (buyers.map (fun x => x.id)).Nodup)
    (hS : (sellers.map (fun s => s.id)).Nodup) :
    cntB (generatedMatches w buyers sellers) b.id =
      max (min 5 sellers.length) (dCount b sellers) := by
  have hres1 : buyerMeetings (step1Go w buyers sellers []) b.id =
      doubleList w b sellers := by
    rw [step1Go_eq, List.nil_append]
    exact buyerMeetings_step1All w buyers sellers b hb hB
  have hE0 : msIds (step1Go w buyers sellers []) b.id =
      (sellers.filter (fun s => decide (doubleSelected b s))).map (fun s => s.id) := by
    unfold msIds
    rw [hres1]
    unfold doubleList
    rw [List.map_map]
    rfl
  have hE0N : (msIds (step1Go w buyers sellers []) b.id).Nodup := by
    rw [hE0]
    exact List.Nodup.sublist ((List.filter_sublist _).map _) hS
  have hE0dom : ∀ x ∈ msIds (step1Go w buyers sellers []) b.id,
      x ∈ sellers.map (fun s => s.id) := by
    rw [hE0]
    intro x hx
    obtain ⟨s, hs, he⟩ := List.mem_map.mp hx
    exact he ▸ List.mem_map_of_mem _ (List.mem_filter.mp hs).1
  have hfound : ∃ y, buyers.find? (fun x => decide (x.id = b.id)) = some y := by
    have h1 : (buyers.find? (fun x => decide (x.id = b.id))).isSome = true :=
      List.find?_isSome.mpr ⟨b, hb, by simp⟩
    exact Option.isSome_iff_exists.mp h1
  have hdoub0 : ∀ s ∈ sellers, doubleSelected b s →
      s.id ∈ msIds (step1Go w buyers sellers []) b.id := by
    rw [hE0]
    intro s hs hds
    exact List.mem_map_of_mem _
      (List.mem_filter.mpr ⟨hs, by rw [decide_eq_true_eq]; exact hds⟩)
  have hfresh0 : ∀ s ∈ sellers,
      s.id ∈ msIds (step1Go w buyers sellers []) b.id → doubleSelected b s := by
    rw [hE0]
    intro s hs hmem
    obtain ⟨s', hs', he⟩ := List.mem_map.mp hmem
    have hs'2 := List.mem_filter.mp hs'
    have heq : s' = s := List.inj_on_of_nodup_map hS hs'2.1 hs he
    have hds := hs'2.2
    rw [decide_eq_true_eq] at hds
    exact heq ▸ hds
  obtain ⟨h2N, h2dom, h2len⟩ := step2Go_master w buyers b sellers hfound sellers
    (step1Go w buyers sellers []) hS (fun s hs => hs) hE0N hE0dom hdoub0 hfresh0
  have hE0len : (msIds (step1Go w buyers sellers []) b.id).length =
      dCount b sellers := by
    rw [hE0, List.length_map]
    rfl
  have h2le : (msIds (step2Go w buyers sellers (step1Go w buyers sellers [])) b.id).length ≤
      sellers.length := by
    have := (List.subperm_of_subset h2N (fun x hx => h2dom x hx)).length_le
    rwa [List.length_map] at this
  have h3 := step3Go_master w sellers b hS buyers
    (step2Go w buyers sellers (step1Go w buyers sellers [])) hb hB h2N h2dom
  rw [cntB_eq_length_msIds]
  unfold generatedMatches
  rw [h3, h2len, hE0len]
  rw [h2len, hE0len] at h2le
  have hd_le : dCount b sellers ≤ sellers.length := List.length_filter_le _ _
  clear h3 h2len hE0len h2N h2dom hE0N hE0dom hdoub0 hfresh0 hE0 hres1 hfound
  split_ifs at h2le ⊢ <;> omega

/-- C1 (amended): with unique buyer and seller ids, the generated match list
gives every buyer exactly `max (min 5 |sellers|) (its double matches)`
matches — exactly 5 when at least 5 sellers exist and it has at most 5
mutual selections, one per double match when it has more than 5 of them
(step 1 never caps), and every available seller when fewer than 5 exist.
The same count holds for the list `find_matches` returns whenever it does
return; on inputs generating zero matches (e.g. an empty seller roster)
`find_matches` instead raises `ZeroDivisionError` in its summary print
(modelled `none`) rather than returning an under-quota result. -/
theorem C1_buyer_match_count (w : Weights) (buyers : List Buyer)
    (sellers : List Seller) (b : Buyer) (hb : b ∈ buyers)
    (hB : (buyers.map (fun x => x.id)).Nodup)
    (hS : (sellers.map (fun s => s.id)).Nodup) :
    cntB (generatedMatches w buyers sellers) b.id =
      max (min 5 sellers.length) (dCount b sellers) ∧
    ∀ ms, find_matches w buyers sellers = some ms →
      cntB ms b.id = max (min 5 sellers.length) (dCount b sellers) := by
  have hcnt := cnt_generatedMatches w buyers sellers b hb hB hS
  refine ⟨hcnt, ?_⟩
  intro ms hms
  simp only [find_matches] at hms
  split_ifs at hms with h <;>
    first
      | (rw [← Option.some_inj.mp hms]; exact hcnt)
      | exact absurd hms (by simp)

/-- Witness for the amended C1: one buyer, two sellers, no selections — the
buyer receives both available sellers (2 = max (min 5 2) 0). -/
def w1Buyers : List Buyer := [plainBuyer "b1" []]

def w1Sellers : List Seller := [plainSeller "s1" [], plainSeller "s2" []]

theorem C1_buyer_match_count_witness :
    plainBuyer "b1" [] ∈ w1Buyers ∧
    (w1Buyers.map (fun x => x.id)).Nodup ∧
    (w1Sellers.map (fun s => s.id)).Nodup ∧
    (cntB (generatedMatches defaultWeights w1Buyers w1Sellers) (plainBuyer "b1" []).id =
      max (min 5 w1Sellers.length) (dCount (plainBuyer "b1" []) w1Sellers) ∧
    ∀ ms, find_matches defaultWeights w1Buyers w1Sellers = some ms →
      cntB ms (plainBuyer "b1" []).id =
        max (min 5 w1Sellers.length) (dCount (plainBuyer "b1" []) w1Sellers)) :=
  ⟨by decide, by decide, by decide,
    C1_buyer_match_count defaultWeights w1Buyers w1Sellers (plainBuyer "b1" [])
      (by decide) (by decide) (by decide)⟩

/-- Whenever the three passes generated at least one match, `find_matches`
returns that list (the summary print divides by the nonzero total without
failing). -/
theorem find_matches_eq_some (w : Weights) (buyers : List Buyer)
    (sellers : List Seller)
    (h : (generatedMatches w buyers sellers).length ≠ 0) :
    find_matches w buyers sellers = some (generatedMatches w buyers sellers) := by
  simp only [find_matches]
  rw [if_neg h]

/-- One buyer in mutual selection with all six sellers. -/
def cex1Buyers : List Buyer :=
  [plainBuyer "b1" ["s1", "s2", "s3", "s4", "s5", "s6"]]

def cex1Sellers : List Seller :=
  [plainSeller "s1" ["b1"], plainSeller "s2" ["b1"], plainSeller "s3" ["b1"],
   plainSeller "s4" ["b1"], plainSeller "s5" ["b1"], plainSeller "s6" ["b1"]]

/-- Counterexample refuting C1 as stated: ids are unique and the buyer has
six (≥ 5) available sellers; `find_matches` returns a match list in which
the buyer appears six times, not five — step 1 emits every mutual pair with
no quota cap. -/
theorem C1_counterexample :
    (cex1Buyers.map (fun x => x.id)).Nodup ∧
    (cex1Sellers.map (fun s => s.id)).Nodup ∧
    5 ≤ cex1Sellers.length ∧
    find_matches defaultWeights cex1Buyers cex1Sellers =
      some (generatedMatches defaultWeights cex1Buyers cex1Sellers) ∧
    cntB (generatedMatches defaultWeights cex1Buyers cex1Sellers) "b1" = 6 :=
  ⟨by decide, by decide, by decide,
    find_matches_eq_some defaultWeights cex1Buyers cex1Sellers (by decide), by decide⟩

/-! ### Pair uniqueness through the three passes -/

theorem pairsOf_append (l1 l2 : List MatchRec) :
    pairsOf (l1 ++ l2) = pairsOf l1 ++ pairsOf l2 :=
  List.map_append _ l1 l2

theorem pairsOf_doubleList (w : Weights) (b : Buyer) (sellers : List Seller) :
    pairsOf (doubleList w b sellers) =
      (sellers.filter (fun s => decide (doubleSelected b s))).map
        (fun s => (b.id, s.id)) := by
  unfold pairsOf doubleList
  rw [List.map_map]
  rfl

theorem nodup_pair_map (c : String) (ids : List String) (h : ids.Nodup) :
    (ids.map (fun x => (c, x))).Nodup :=
  h.map (fun x y hxy => by simpa using hxy)

theorem pairsOf_doubleList_nodup (w : Weights) (b : Buyer) (sellers : List Seller)
    (hS : (sellers.map (fun s => s.id)).Nodup) :
    (pairsOf (doubleList w b sellers)).Nodup := by
  rw [pairsOf_doubleList]
  have hidsN : ((sellers.filter (fun s => decide (doubleSelected b s))).map
      (fun s => s.id)).Nodup :=
    List.Nodup.sublist ((List.filter_sublist _).map _) hS
  have : (sellers.filter (fun s => decide (doubleSelected b s))).map
      (fun s => (b.id, s.id)) =
      ((sellers.filter (fun s => decide (doubleSelected b s))).map
        (fun s => s.id)).map (fun x => (b.id, x)) := by
    rw [List.map_map]
    rfl
  rw [this]
  exact nodup_pair_map b.id _ hidsN

theorem pairsOf_step1All_fst (w : Weights) (sellers : List Seller) :
    ∀ bl : List Buyer, ∀ pr ∈ pairsOf (step1All w bl sellers),
      pr.1 ∈ bl.map (fun x => x.id) := by
  intro bl
  induction bl with
  | nil => intro pr h; exact absurd h (List.not_mem_nil pr)
  | cons b rest ih =>
    intro pr h
    rw [step1All, pairsOf_append] at h
    rcases List.mem_append.mp h with h1 | h1
    · rw [pairsOf_doubleList] at h1
      obtain ⟨s, _, he⟩ := List.mem_map.mp h1
      rw [← he]
      exact List.mem_cons_self _ _
    · exact List.mem_cons_of_mem _ (ih pr h1)

theorem pairsOf_step1All_nodup (w : Weights) (sellers : List Seller)
    (hS : (sellers.map (fun s => s.id)).Nodup) :
    ∀ bl : List Buyer, (bl.map (fun x => x.id)).Nodup →
      (pairsOf (step1All w bl sellers)).Nodup := by
  intro bl
  induction bl with
  | nil => intro _; exact List.Pairwise.nil
  | cons b rest ih =>
    intro hB
    rw [List.map_cons, List.nodup_cons] at hB
    rw [step1All, pairsOf_append, List.nodup_append]
    refine ⟨pairsOf_doubleList_nodup w b sellers hS, ih hB.2, ?_⟩
    intro pr hpr hpr2
    rw [pairsOf_doubleList] at hpr
    obtain ⟨s, _, he⟩ := List.mem_map.mp hpr
    have h1 := pairsOf_step1All_fst w sellers rest pr hpr2
    rw [← he] at h1
    exact hB.1 h1

theorem pairsOf_step2Entry_nodup (w : Weights) (buyers : List Buyer) (s : Seller)
    (acc : List MatchRec) (i : String) (h : (pairsOf acc).Nodup) :
    (pairsOf (step2Entry w buyers s acc i)).Nodup := by
  cases hf : buyers.find? (fun b => decide (b.id = i)) with
  | none => simpa only [step2Entry, hf] using h
  | some y =>
    simp only [step2Entry, hf]
    split_ifs with h1 h2
    · exact h
    · rw [pairsOf_append, List.nodup_append]
      refine ⟨h, by simp [pairsOf], ?_⟩
      intro pr hpr hpr2
      have hsing : ∀ m : MatchRec, pairsOf [m] = [(m.buyer_id, m.seller_id)] :=
        fun m => rfl
      rw [hsing, List.mem_singleton] at hpr2
      subst hpr2
      have hmem := (pair_mem_iff acc i s.id).mp hpr
      exact h1 ((step2_guard_iff acc i s.id).mpr hmem)
    · exact h

theorem pairsOf_step2Ids_nodup (w : Weights) (buyers : List Buyer) (s : Seller) :
    ∀ (ids : List String) (acc : List MatchRec), (pairsOf acc).Nodup →
      (pairsOf (step2Ids w buyers s ids acc)).Nodup := by
  intro ids
  induction ids with
  | nil => intro acc h; exact h
  | cons i rest ih =>
    intro acc h
    simp only [step2Ids]
    exact ih _ (pairsOf_step2Entry_nodup w buyers s acc i h)

theorem pairsOf_step2Go_nodup (w : Weights) (buyers : List Buyer) :
    ∀ (sellers : List Seller) (acc : List MatchRec), (pairsOf acc).Nodup →
      (pairsOf (step2Go w buyers sellers acc)).Nodup := by
  intro sellers
  induction sellers with
  | nil => intro acc h; exact h
  | cons s rest ih =>
    intro acc h
    simp only [step2Go]
    exact ih _ (pairsOf_step2Ids_nodup w buyers s _ acc h)

theorem pairsOf_step3Buyer_nodup (w : Weights) (sellers : List Seller)
    (buyer : Buyer) (acc : List MatchRec)
    (hSN : (sellers.map (fun s => s.id)).Nodup)
    (h : (pairsOf acc).Nodup) :
    (pairsOf (step3Buyer w sellers buyer acc)).Nodup := by
  have hmsid : (buyerMeetings acc buyer.id).map (fun m => m.seller_id) =
      msIds acc buyer.id := rfl
  by_cases hc : (buyerMeetings acc buyer.id).length < 5
  · have hstep : step3Buyer w sellers buyer acc =
        acc ++ ((((sellers.filter
          (fun s => decide (s.id ∉ msIds acc buyer.id))).map
            (fun s => (s, calculate_compatibility_score w buyer s))).mergeSort
              (fun x y => decide (y.2 ≤ x.2))).take
                (5 - (buyerMeetings acc buyer.id).length)).map (mkAISuggestion buyer) := by
      simp only [step3Buyer]
      rw [if_pos hc, hmsid]
    have hperm : ((((sellers.filter
        (fun s => decide (s.id ∉ msIds acc buyer.id))).map
          (fun s => (s, calculate_compatibility_score w buyer s))).mergeSort
            (fun x y => decide (y.2 ≤ x.2)))).Perm
        ((sellers.filter (fun s => decide (s.id ∉ msIds acc buyer.id))).map
          (fun s => (s, calculate_compatibility_score w buyer s))) :=
      List.mergeSort_perm _ _
    have hcomp : ((fun p : Seller × ℚ => p.1.id) ∘
        (fun s => (s, calculate_compatibility_score w buyer s))) =
        fun s : Seller => s.id := rfl
    have hids_perm : (((((sellers.filter
        (fun s => decide (s.id ∉ msIds acc buyer.id))).map
          (fun s => (s, calculate_compatibility_score w buyer s))).mergeSort
            (fun x y => decide (y.2 ≤ x.2)))).map (fun p => p.1.id)).Perm
        ((sellers.filter (fun s => decide (s.id ∉ msIds acc buyer.id))).map
          (fun s => s.id)) := by
      have h1 := hperm.map (fun p : Seller × ℚ => p.1.id)
      rwa [List.map_map, hcomp] at h1
    have havailN : ((sellers.filter
        (fun s => decide (s.id ∉ msIds acc buyer.id))).map (fun s => s.id)).Nodup :=
      List.Nodup.sublist ((List.filter_sublist sellers).map _) hSN
    have hsortedN := (hids_perm.nodup_iff).mpr havailN
    have htakeN : ((((((sellers.filter
        (fun s => decide (s.id ∉ msIds acc buyer.id))).map
          (fun s => (s, calculate_compatibility_score w buyer s))).mergeSort
            (fun x y => decide (y.2 ≤ x.2)))).take
              (5 - (buyerMeetings acc buyer.id).length)).map
                (fun p => p.1.id)).Nodup :=
      List.Nodup.sublist ((List.take_sublist _ _).map _) hsortedN
    have hbatch_not_in : ∀ x ∈ (((((sellers.filter
        (fun s => decide (s.id ∉ msIds acc buyer.id))).map
          (fun s => (s, calculate_compatibility_score w buyer s))).mergeSort
            (fun x y => decide (y.2 ≤ x.2)))).take
              (5 - (buyerMeetings acc buyer.id).length)).map (fun p => p.1.id),
        x ∉ msIds acc buyer.id := by
      intro x hx
      have hx1 := ((List.take_sublist _ _).map (fun p : Seller × ℚ => p.1.id)).subset hx
      have hx2 := hids_perm.mem_iff.mp hx1
      obtain ⟨s, hs, he⟩ := List.mem_map.mp hx2
      have hcond := (List.mem_filter.mp hs).2
      rw [decide_eq_true_eq] at hcond
      exact he ▸ hcond
    have hbatch_pairs : pairsOf (((((sellers.filter
        (fun s => decide (s.id ∉ msIds acc buyer.id))).map
          (fun s => (s, calculate_compatibility_score w buyer s))).mergeSort
            (fun x y => decide (y.2 ≤ x.2))).take
              (5 - (buyerMeetings acc buyer.id).length)).map (mkAISuggestion buyer)) =
        (((((sellers.filter
          (fun s => decide (s.id ∉ msIds acc buyer.id))).map
            (fun s => (s, calculate_compatibility_score w buyer s))).mergeSort
              (fun x y => decide (y.2 ≤ x.2)))).take
                (5 - (buyerMeetings acc buyer.id).length)).map
                  (fun p => (buyer.id, p.1.id)) := by
      unfold pairsOf
      rw [List.map_map]
      rfl
    rw [hstep, pairsOf_append, List.nodup_append, hbatch_pairs]
    refine ⟨h, ?_, ?_⟩
    · have : (((((sellers.filter
          (fun s => decide (s.id ∉ msIds acc buyer.id))).map
            (fun s => (s, calculate_compatibility_score w buyer s))).mergeSort
              (fun x y => decide (y.2 ≤ x.2)))).take
                (5 - (buyerMeetings acc buyer.id).length)).map
                  (fun p => (buyer.id, p.1.id)) =
          ((((((sellers.filter
            (fun s => decide (s.id ∉ msIds acc buyer.id))).map
              (fun s => (s, calculate_compatibility_score w buyer s))).mergeSort
                (fun x y => decide (y.2 ≤ x.2)))).take
                  (5 - (buyerMeetings acc buyer.id).length)).map
                    (fun p => p.1.id)).map (fun x => (buyer.id, x)) := by
        rw [List.map_map]
        rfl
      rw [this]
      exact nodup_pair_map buyer.id _ htakeN
    · intro pr hpr hpr2
      obtain ⟨p, hp, he⟩ := List.mem_map.mp hpr2
      subst he
      have hmem := (pair_mem_iff acc buyer.id p.1.id).mp hpr
      exact hbatch_not_in p.1.id (List.mem_map_of_mem _ hp) hmem
  · have hstep : step3Buyer w sellers buyer acc = acc := by
      simp only [step3Buyer]
      rw [if_neg hc]
    rw [hstep]
    exact h

theorem pairsOf_step3Go_nodup (w : Weights) (sellers : List Seller)
    (hSN : (sellers.map (fun s => s.id)).Nodup) :
    ∀ (bl : List Buyer) (acc : List MatchRec), (pairsOf acc).Nodup →
      (pairsOf (step3Go w sellers bl acc)).Nodup := by
  intro bl
  induction bl with
  | nil => intro acc h; exact h
  | cons b rest ih =>
    intro acc h
    simp only [step3Go]
    exact ih _ (pairsOf_step3Buyer_nodup w sellers b acc hSN h)

/-- C2: with unique buyer and seller ids, no (buyer, seller) pair appears
twice across the whole match list produced by `find_matches` — step 1 visits
each pair once, step 2 skips already-matched pairs, step 3 only draws from
sellers not yet matched with the buyer. -/
theorem C2_pair_uniqueness (w : Weights) (buyers : List Buyer)
    (sellers : List Seller)
    (hB : (buyers.map (fun x => x.id)).Nodup)
    (hS : (sellers.map (fun s => s.id)).Nodup) :
    (pairsOf (generatedMatches w buyers sellers)).Nodup ∧
    ∀ ms, find_matches w buyers sellers = some ms → (pairsOf ms).Nodup := by
  have hgen : (pairsOf (generatedMatches w buyers sellers)).Nodup := by
    unfold generatedMatches
    apply pairsOf_step3Go_nodup w sellers hS
    apply pairsOf_step2Go_nodup w buyers
    rw [step1Go_eq, List.nil_append]
    exact pairsOf_step1All_nodup w sellers hS buyers hB
  refine ⟨hgen, ?_⟩
  intro ms hms
  simp only [find_matches] at hms
  split_ifs at hms with h <;>
    first
      | (rw [← Option.some_inj.mp hms]; exact hgen)
      | exact absurd hms (by simp)

/-- Witness for C2 on a concrete roster. -/
def w2Buyers : List Buyer := [plainBuyer "b1" ["s1"], plainBuyer "b2" []]

def w2Sellers : List Seller := [plainSeller "s1" ["b1", "b2"], plainSeller "s2" []]

theorem C2_pair_uniqueness_witness :
    (w2Buyers.map (fun x => x.id)).Nodup ∧
    (w2Sellers.map (fun s => s.id)).Nodup ∧
    ((pairsOf (generatedMatches defaultWeights w2Buyers w2Sellers)).Nodup ∧
    ∀ ms, find_matches defaultWeights w2Buyers w2Sellers = some ms →
      (pairsOf ms).Nodup) :=
  ⟨by decide, by decide,
    C2_pair_uniqueness defaultWeights w2Buyers w2Sellers (by decide) (by decide)⟩

end Nexo
